import Mathlib

/-!
Verification of the `rpi_lcd` animation core (`src/rpi_lcd/lcd.py`).

The development shallowly embeds the scheduling/animation logic of
`LCD.animated_display` and `LCD.scroll_text`:
  * Python strings become `List Char`; slices `text[i : i + width]` become
    `(text.drop i).take width`.
  * `time.monotonic()` readings, delays and timeouts are modelled as `Int`
    (think: clock ticks).  The source works with float seconds, but every
    statement proved here concerns only ordering, minima and addition of
    time values, so an integer time line loses no generality;
    `float("inf")` deadlines become the `ETime.inf` point of an extended
    time type.
  * Calls to the renderer (`self.text`, `self.clear_line`) and warning /
    error prints become entries of an `Event` trace.
-/

namespace RpiLcd

/-- Time values (clock readings, delays): integer clock ticks. -/
abbrev Time := Int

/-- Extended time: a finite monotonic-clock value, or plus infinity
(`float("inf")` in the source). -/
inductive ETime where
  | fin : Time → ETime
  | inf : ETime
deriving DecidableEq, Repr

namespace ETime

/-- `now < t` for a finite `now` (used for `now < next_action_time`). -/
def qlt (q : Time) : ETime → Bool
  | .fin a => decide (q < a)
  | .inf => true

/-- `now ≤ t` for a finite `now` (used for `time.monotonic() <= end_time`). -/
def qle (q : Time) : ETime → Bool
  | .fin a => decide (q ≤ a)
  | .inf => true

/-- `t ≤ now` for a finite `now` (used for `now >= end_time`). -/
def leq (t : ETime) (q : Time) : Bool :=
  match t with
  | .fin a => decide (a ≤ q)
  | .inf => false

/-- `t < now` for a finite `now` (used for `time.monotonic() > end_time`). -/
def ltq (t : ETime) (q : Time) : Bool :=
  match t with
  | .fin a => decide (a < q)
  | .inf => false

/-- Minimum of two extended times (Python `min`). -/
def emin : ETime → ETime → ETime
  | .inf, b => b
  | .fin a, .inf => .fin a
  | .fin a, .fin b => .fin (min a b)

end ETime

/-- Python `range(start, -1, -1)`: the descending list `start, start-1, …, 0`,
empty when `start < 0`. -/
def pyRangeDown (start : Int) : List Nat :=
  if start < 0 then [] else (List.range (start.toNat + 1)).reverse

/-- The valid scroll directions (`valid_directions` in the source). -/
def validDirections : List String := ["left", "right", "both_lr", "both_rl"]

/-- Scroll phase sequences computed by `animated_display`
(lines 522-540 of `lcd.py`), including the silent fallback of an
unrecognized direction to `"left"`. -/
def computePhases (numShifts : Nat) (direction : String) : List (List Nat) :=
  let actual_direction := if direction ∈ validDirections then direction else "left"
  if actual_direction = "left" then
    [List.range (numShifts + 1)]
  else if actual_direction = "right" then
    [pyRangeDown (numShifts : Int)]
  else if actual_direction = "both_lr" then
    [List.range (numShifts + 1), pyRangeDown ((numShifts : Int) - 1)]
  else if actual_direction = "both_rl" then
    [pyRangeDown (numShifts : Int), (List.range numShifts).map (fun k => k + 1)]
  else
    []

/-- Scroll phase sequences computed inside `scroll_text`'s animation loop
(lines 419-433 of `lcd.py`); the argument is the direction *after* the
fallback performed at function entry (lines 382-385). -/
def scrollTextPhases (d : String) (numShifts : Nat) : List (List Nat) :=
  if d = "left" then
    [List.range (numShifts + 1)]
  else if d = "right" then
    [pyRangeDown (numShifts : Int)]
  else if d = "both_lr" then
    [List.range (numShifts + 1), pyRangeDown ((numShifts : Int) - 1)]
  else if d = "both_rl" then
    [pyRangeDown (numShifts : Int), (List.range numShifts).map (fun k => k + 1)]
  else
    []

/-- The scroll plan exactly as the specification words it (§4.1 of the
spec): ascending `0..shifts`, descending `shifts..0`, the two-phase
combinations with the shared boundary offset omitted, and fallback of an
unknown direction to the `"left"` plan. -/
def specPlan (direction : String) (shifts : Nat) : List (List Nat) :=
  let asc := List.range (shifts + 1)
  let desc := (List.range (shifts + 1)).reverse
  if direction = "left" then [asc]
  else if direction = "right" then [desc]
  else if direction = "both_lr" then [asc, (List.range shifts).reverse]
  else if direction = "both_rl" then [desc, (List.range shifts).map (fun k => k + 1)]
  else [asc]

/-- Configuration for one animated line (`ScrollLine` dataclass). -/
structure ScrollLine where
  text : List Char
  line : Int
  scroll_delay : Time := 2
  start_delay : Time := 5
  phase_delay : Time := 5
  end_delay : Time := 5
  direction : String := "left"
  loops : Int := 1
  timeout : Time := 0
deriving DecidableEq, Repr

/-- The per-line animation states of `animated_display`. -/
inductive LState where
  | awaiting_first_scroll
  | scrolling
  | awaiting_phase_delay
  | awaiting_end_delay
  | finished
deriving DecidableEq, Repr

/-- One entry of `line_states`.  The source stores a dict; entries for
static lines omit the loop/phase/frame/deadline fields, which are never
read for them — those fields default to `0` / `ETime.inf` here. -/
structure LineState where
  config : ScrollLine
  state : LState
  next_action_time : ETime
  current_loop : Int
  current_phase_idx : Nat
  current_frame_in_phase_idx : Nat
  all_phases_indices : List (List Nat)
  end_time : ETime
deriving DecidableEq, Repr

/-- Observable actions of the animation routines: renderer calls
(`self.text`, `self.clear_line`) and the warning / error prints. -/
inductive Event where
  | clearLine (line : Int)
  | renderText (text : List Char) (line : Int)
  | warnInvalidLine (line : Int)
  | warnInvalidDirection (direction : String)
  | errorNoPhases (line : Int)
  | errorOOB (line : Int)
deriving DecidableEq, Repr

/-- Recognizer for the frame-index-out-of-bounds error print
(line 702 of `lcd.py`). -/
def Event.isOOB : Event → Bool
  | .errorOOB _ => true
  | _ => false

/-- The keys of the `LINES` DDRAM address table. -/
def LINESkeys : List Int := [1, 2, 3, 4]

/-- Validity test for a line number performed by `animated_display`
(line 496): `config.line not in LINES or config.line > self.rows` skips. -/
def validLine (rows : Nat) (line : Int) : Bool :=
  decide (line ∈ LINESkeys) && decide (line ≤ (rows : Int))

/-- Python slice `text[i : i + width]`. -/
def scrollSlice (text : List Char) (width : Nat) (i : Nat) : List Char :=
  (text.drop i).take width

/-- Fuel-indexed helper for `findNonempty` (structural recursion so that
the kernel can evaluate it). -/
def findNonemptyAux (phases : List (List Nat)) : Nat → Nat → Option Nat
  | 0, _ => none
  | fuel + 1, i =>
    if h : i < phases.length then
      if phases.get ⟨i, h⟩ ≠ [] then some i
      else findNonemptyAux phases fuel (i + 1)
    else none

/-- Index search mirroring the `while … not all_phases_indices[idx] … idx += 1`
loops: the first index `i ≥ start` whose phase list is non-empty, if any. -/
def findNonempty (phases : List (List Nat)) (start : Nat) : Option Nat :=
  findNonemptyAux phases (phases.length - start) start

/-- Python `str.rfind(" ")` on a character list: last index of a space,
`-1` when absent. -/
def pyRFindSpace : List Char → Int
  | [] => -1
  | ch :: rest =>
    let r := pyRFindSpace rest
    if r ≥ 0 then r + 1 else if ch = ' ' then 0 else -1

/-- Python `str.isspace` characters stripped by `str.strip()`. -/
def pyIsSpace (ch : Char) : Bool :=
  ch = ' ' || ch = '\t' || ch = '\n' || ch = '\x0d' || ch = '\x0b' || ch = '\x0c'

/-- Python `str.strip()`. -/
def pyStrip (s : List Char) : List Char :=
  ((s.dropWhile pyIsSpace).reverse.dropWhile pyIsSpace).reverse

/-- `LCD.get_text_line`: split text into the part for the current line and
the remainder (lines 266-304 of `lcd.py`). -/
def get_text_line (width : Nat) (text : List Char) : List Char × List Char :=
  if text.length ≤ width then (text, [])
  else
    let possible_break_point : Int := pyRFindSpace (text.take (width + 1))
    let line_break : Nat :=
      if possible_break_point < 0 ∨ possible_break_point > (width : Int) then width
      else possible_break_point.toNat
    (text.take line_break, pyStrip (text.drop line_break))

/-- Python `str.ljust(width)`. -/
def ljust (s : List Char) (width : Nat) : List Char :=
  s ++ List.replicate (width - s.length) ' '

/-- The fixed-width string `LCD.text` writes onto its target row for the
default `align="left"` (the only alignment the animation routines use). -/
def lcdRowContent (width : Nat) (text : List Char) : List Char :=
  ljust (get_text_line width text).1 width

/-- Insertion-order-preserving key update of an association list, matching
Python dict assignment `d[k] = v` (replaces in place, else appends). -/
def setD (d : List (Int × LineState)) (k : Int) (v : LineState) :
    List (Int × LineState) :=
  match d with
  | [] => [(k, v)]
  | (k0, v0) :: rest => if k0 = k then (k, v) :: rest else (k0, v0) :: setD rest k v

/-- Python dict lookup `d[k]` / `k in d`. -/
def lookupD (d : List (Int × LineState)) (k : Int) : Option LineState :=
  match d with
  | [] => none
  | (k0, v0) :: rest => if k0 = k then some v0 else lookupD rest k

/-- The per-line deadline `now + timeout if timeout > 0 else float("inf")`
(line 519 of `lcd.py`). -/
def endTimeFor (now : Time) (c : ScrollLine) : ETime :=
  if 0 < c.timeout then .fin (now + c.timeout) else .inf

/-- The `line_states` entry built for one valid config during the setup
loop of `animated_display` (lines 495-584 of `lcd.py`). -/
def lineEntry (width : Nat) (now : Time) (c : ScrollLine) : LineState :=
  if c.text.length ≤ width then
    { config := c
      state := .finished
      next_action_time := .inf
      current_loop := 0
      current_phase_idx := 0
      current_frame_in_phase_idx := 0
      all_phases_indices := []
      end_time := .inf }
  else
    let numShifts := c.text.length - width
    let phases := computePhases numShifts c.direction
    match findNonempty phases 0 with
    | none =>
      { config := c
        state := .finished
        next_action_time := .inf
        current_loop := 0
        current_phase_idx := 0
        current_frame_in_phase_idx := 0
        all_phases_indices := phases
        end_time := .inf }
    | some fpi =>
      { config := c
        state := .awaiting_first_scroll
        next_action_time := .fin (now + c.start_delay)
        current_loop := 0
        current_phase_idx := fpi
        current_frame_in_phase_idx := 1
        all_phases_indices := phases
        end_time := endTimeFor now c }

/-- The renderer calls / prints emitted for one valid config during the
setup loop of `animated_display`: clear the line, then either the static
text or the initial frame of the first non-empty phase. -/
def lineEvents (width : Nat) (c : ScrollLine) : List Event :=
  if c.text.length ≤ width then
    [.clearLine c.line, .renderText c.text c.line]
  else
    let phases := computePhases (c.text.length - width) c.direction
    match findNonempty phases 0 with
    | none =>
      [.clearLine c.line, .errorNoPhases c.line,
       .renderText (c.text.take width) c.line]
    | some fpi =>
      [.clearLine c.line,
       .renderText (scrollSlice c.text width ((phases.getD fpi []).getD 0 0)) c.line]

/-- State accumulated by the setup loop of `animated_display`. -/
structure SetupState where
  line_states : List (Int × LineState)
  overall_end_time : ETime
  events : List Event
deriving DecidableEq, Repr

/-- One iteration of the setup loop (lines 495-584 of `lcd.py`): skip an
invalid line with a warning; otherwise record its entry, fold its deadline
into the overall deadline when the text scrolls, and emit its events. -/
def setupStep (width : Nat) (rows : Nat) (now : Time) (s : SetupState)
    (c : ScrollLine) : SetupState :=
  if validLine rows c.line then
    { line_states := setD s.line_states c.line (lineEntry width now c)
      overall_end_time :=
        if width < c.text.length then
          ETime.emin s.overall_end_time (endTimeFor now c)
        else s.overall_end_time
      events := s.events ++ lineEvents width c }
  else
    { s with events := s.events ++ [.warnInvalidLine c.line] }

/-- The complete setup pass of `animated_display` over the config list. -/
def setup (width rows : Nat) (now : Time) (configs : List ScrollLine) :
    SetupState :=
  configs.foldl (setupStep width rows now) ⟨[], .inf, []⟩

/-- Result of processing one due line in the main loop (lines 620-787):
the updated entry, the emitted events, and whether the line was removed
from the active set. -/
structure StepResult where
  st : LineState
  events : List Event
  removed : Bool
deriving DecidableEq, Repr

/-- One per-line step of the main animation loop of `animated_display`
(lines 620-787 of `lcd.py`): skip finished / not-yet-due lines, apply the
per-line deadline first, then the state machine transition. -/
def processLine (width : Nat) (now : Time) (ln : Int) (s : LineState) :
    StepResult :=
  if s.state = .finished || ETime.qlt now s.next_action_time then
    ⟨s, [], false⟩
  else if ETime.leq s.end_time now then
    ⟨{ s with state := .finished, next_action_time := .inf },
     if width < s.config.text.length then
       [.renderText (s.config.text.take width) ln]
     else [],
     true⟩
  else
    match s.state with
    | .awaiting_first_scroll =>
      ⟨{ s with state := .scrolling, next_action_time := .fin now }, [], false⟩
    | .scrolling =>
      let phase := s.all_phases_indices.getD s.current_phase_idx []
      let fidx := s.current_frame_in_phase_idx
      if fidx < phase.length then
        let off := phase.getD fidx 0
        let ev := Event.renderText (scrollSlice s.config.text width off) ln
        if fidx + 1 < phase.length then
          ⟨{ s with
               current_frame_in_phase_idx := fidx + 1
               next_action_time := .fin (now + s.config.scroll_delay) },
           [ev], false⟩
        else
          match findNonempty s.all_phases_indices (s.current_phase_idx + 1) with
          | some nidx =>
            ⟨{ s with
                 current_frame_in_phase_idx := 0
                 state := .awaiting_phase_delay
                 current_phase_idx := nidx
                 next_action_time := .fin (now + s.config.phase_delay) },
             [ev], false⟩
          | none =>
            ⟨{ s with
                 current_frame_in_phase_idx := fidx + 1
                 state := .awaiting_end_delay
                 current_phase_idx := s.current_phase_idx + 1
                 next_action_time := .fin (now + s.config.end_delay) },
             [ev], false⟩
      else
        ⟨{ s with state := .finished, next_action_time := .inf },
         .errorOOB ln ::
           (if width < s.config.text.length then
             [.renderText (s.config.text.take width) ln]
           else []),
         true⟩
    | .awaiting_phase_delay =>
      ⟨{ s with state := .scrolling, next_action_time := .fin now }, [], false⟩
    | .awaiting_end_delay =>
      let newLoop := s.current_loop + 1
      if (s.config.loops ≠ 0 && s.config.loops ≤ newLoop)
          || ETime.leq s.end_time now then
        ⟨{ s with
             current_loop := newLoop
             state := .finished
             next_action_time := .inf },
         if width < s.config.text.length then
           [.renderText (s.config.text.take width) ln]
         else [],
         true⟩
      else
        match findNonempty s.all_phases_indices 0 with
        | some fpi =>
          let phase := s.all_phases_indices.getD fpi []
          ⟨{ s with
               current_loop := newLoop
               state := .awaiting_first_scroll
               next_action_time := .fin (now + s.config.start_delay)
               current_phase_idx := fpi
               current_frame_in_phase_idx := 1 },
           [.renderText (scrollSlice s.config.text width (phase.getD 0 0)) ln],
           false⟩
        | none =>
          ⟨{ s with
               current_loop := newLoop
               state := .finished
               next_action_time := .inf
               current_phase_idx := 0
               current_frame_in_phase_idx := 0 },
           .errorNoPhases ln ::
             (if width < s.config.text.length then
               [.renderText (s.config.text.take width) ln]
             else []),
           true⟩
    | .finished => ⟨s, [], false⟩

/-- Scheduler state of the main animation loop. -/
structure SchedState where
  line_states : List (Int × LineState)
  active : List Int
  overall_end_time : ETime
deriving DecidableEq, Repr

/-- The active line numbers derived from `line_states` (line 587). -/
def activeFrom (d : List (Int × LineState)) : List Int :=
  (d.filter (fun p => p.2.state ≠ .finished)).map Prod.fst

/-- `min(next_action_time)` over the active lines (line 608). -/
def minNextAction (d : List (Int × LineState)) (act : List Int) : ETime :=
  act.foldl
    (fun m ln =>
      match lookupD d ln with
      | some st => ETime.emin m st.next_action_time
      | none => m)
    .inf

/-- One step of the overall-deadline fold of the main loop
(lines 595-601 of `lcd.py`): render the static fallback of a scrolling
line, mark it finished. -/
def finishStep (width : Nat) (acc : List (Int × LineState) × List Event)
    (ln : Int) : List (Int × LineState) × List Event :=
  match lookupD acc.1 ln with
  | some st =>
    (setD acc.1 ln { st with state := .finished, next_action_time := .inf },
     acc.2 ++
       (if width < st.config.text.length then
         [.renderText (st.config.text.take width) ln]
       else []))
  | none => acc

/-- One step of the due-line fold of the main loop (lines 620-787 of
`lcd.py`): process one active line with `processLine`, store the updated
entry, drop it from the active list when it finished. -/
def processStep (width : Nat) (now : Time)
    (acc : List (Int × LineState) × List Int × List Event) (ln : Int) :
    List (Int × LineState) × List Int × List Event :=
  match lookupD acc.1 ln with
  | some st =>
    let r := processLine width now ln st
    (setD acc.1 ln r.st,
     if r.removed then acc.2.1.filter (fun x => x ≠ ln) else acc.2.1,
     acc.2.2 ++ r.events)
  | none => acc

/-- One iteration of the main `while active_line_numbers` loop
(lines 590-787 of `lcd.py`).  `nowA` is the reading taken at the top of
the iteration; `nowB` is the reading taken after the sleep, used only when
`nowA` precedes the next due action.  The third component is `true` when
the iteration ended the loop via the overall-deadline `break`. -/
def tick (width : Nat) (nowA nowB : Time) (s : SchedState) :
    SchedState × List Event × Bool :=
  if ETime.leq s.overall_end_time nowA then
    let folded := s.active.foldl (finishStep width) (s.line_states, [])
    (⟨folded.1, [], s.overall_end_time⟩, folded.2, true)
  else
    let minNext := minNextAction s.line_states s.active
    let now := if ETime.qlt nowA minNext then nowB else nowA
    let folded := s.active.foldl (processStep width now)
      (s.line_states, s.active, [])
    (⟨folded.1, folded.2.1, s.overall_end_time⟩, folded.2.2, false)

/-- The main animation loop, driven by a schedule of observed clock
readings (one pair per iteration; an empty schedule cuts the run off). -/
def runLoop (width : Nat) : List (Time × Time) → SchedState →
    SchedState × List Event
  | [], s => (s, [])
  | (a, b) :: rest, s =>
    if s.active.isEmpty then (s, [])
    else
      let r := tick width a b s
      if r.2.2 then (r.1, r.2.1)
      else
        let r2 := runLoop width rest r.1
        (r2.1, r.2.1 ++ r2.2)

/-- One step of the final safeguard pass (lines 790-798 of `lcd.py`). -/
def safeguardStep (width : Nat) (d : List (Int × LineState))
    (evs : List Event) (c : ScrollLine) : List Event :=
  match lookupD d c.line with
  | some st =>
    if st.state = .finished ∧ width < c.text.length then
      evs ++ [.renderText (c.text.take width) c.line]
    else evs
  | none => evs

/-- The final safeguard pass (lines 789-798 of `lcd.py`): re-render the
truncated text of every finished scrolling config. -/
def safeguard (width : Nat) (d : List (Int × LineState))
    (configs : List ScrollLine) : List Event :=
  configs.foldl (safeguardStep width d) []

/-- Result of a complete (schedule-bounded) `animated_display` run. -/
structure RunResult where
  line_states : List (Int × LineState)
  events : List Event
deriving DecidableEq, Repr

/-- A complete `animated_display` run: setup at clock value `now0`, the
main loop over the given schedule of clock readings, then the safeguard
pass. -/
def animatedDisplay (width rows : Nat) (now0 : Time)
    (configs : List ScrollLine) (sched : List (Time × Time)) : RunResult :=
  let su := setup width rows now0 configs
  let r := runLoop width sched ⟨su.line_states, activeFrom su.line_states,
    su.overall_end_time⟩
  ⟨r.1.line_states, su.events ++ r.2 ++ safeguard width r.1.line_states configs⟩

/-- Clock-reading cursor and event trace threaded through `scroll_text`:
`idx` is the index of the next `time.monotonic()` call in the externally
supplied clock sequence. -/
structure STRun where
  idx : Nat
  events : List Event
deriving DecidableEq, Repr

/-- The inner `for i in phase_indices` loop of `scroll_text`
(lines 442-459): check the deadline, render the window at offset `i`,
sleep.  Returns the run state and the `first_phase_incdice` flag; a
deadline hit breaks out of this phase only. -/
def stFrames (clk : Nat → Time) (text : List Char) (width : Nat) (ln : Int)
    (endT : ETime) : List Nat → STRun → Bool → STRun × Bool
  | [], r, first => (r, first)
  | i :: rest, r, first =>
    let now := clk r.idx
    let r1 : STRun := ⟨r.idx + 1, r.events⟩
    if ETime.ltq endT now then (r1, first)
    else
      let r2 : STRun :=
        ⟨r1.idx, r1.events ++ [.renderText (scrollSlice text width i) ln]⟩
      stFrames clk text width ln endT rest r2 false

/-- The `for phase_no, phase_indices in enumerate(phases)` loop of
`scroll_text` (lines 438-464).  The phase-delay sleeps affect timing only
and leave no trace.  A deadline hit at the top of a phase breaks out of
the whole phase loop. -/
def stPhases (clk : Nat → Time) (text : List Char) (width : Nat) (ln : Int)
    (endT : ETime) : List (List Nat) → STRun → Bool → STRun × Bool
  | [], r, first => (r, first)
  | ph :: rest, r, first =>
    let now := clk r.idx
    let r1 : STRun := ⟨r.idx + 1, r.events⟩
    if ETime.ltq endT now then (r1, first)
    else
      let r2 := stFrames clk text width ln endT ph r1 first
      stPhases clk text width ln endT rest r2.1 r2.2

/-- The outer `while loops == 0 or current_loops < loops` loop of
`scroll_text` (lines 413-475), bounded by `fuel` (`none` = fuel ran out
before the loop exited).  On success it returns the run state and, when
the loop exited through one of its two deadline `break`s, the index of
the clock reading that triggered it. -/
def stLoop (clk : Nat → Time) (text : List Char) (width : Nat) (ln : Int)
    (endT : ETime) (phases : List (List Nat)) (loops : Int) :
    Nat → Int → STRun → Option (STRun × Option Nat)
  | fuel, cl, r =>
    if ¬ (loops = 0 ∨ cl < loops) then some (r, none)
    else
      match fuel with
      | 0 => none
      | fuel' + 1 =>
        let now := clk r.idx
        let r1 : STRun := ⟨r.idx + 1, r.events⟩
        if ETime.ltq endT now then some (r1, some r.idx)
        else
          let r2 := stPhases clk text width ln endT phases r1 true
          let now2 := clk r2.1.idx
          let r3 : STRun := ⟨r2.1.idx + 1, r2.1.events⟩
          if ETime.ltq endT now2 then some (r3, some r2.1.idx)
          else
            let cl2 := cl + 1
            if loops ≠ 0 ∧ loops ≤ cl2 then some (r3, none)
            else stLoop clk text width ln endT phases loops fuel' cl2 r3

/-- Result of a `scroll_text` call. -/
structure STResult where
  events : List Event
  finalStatic : Bool
  finalIdx : Nat
  breakIdx : Option Nat
deriving DecidableEq, Repr

/-- `LCD.scroll_text` (lines 336-483 of `lcd.py`), driven by an external
sequence of monotonic-clock readings.  `finalStatic` records whether the
final `self.text(text[:width], line)` of line 483 executed, `finalIdx` the
index of the clock reading consumed by its guard (line 482), and
`breakIdx` the reading that made the animation loop break on timeout, if
any.  `none` when `fuel` iterations of the loop were not enough. -/
def scroll_text (clk : Nat → Time) (width rows : Nat) (text : List Char)
    (ln : Int) (direction : String) (loops : Int) (timeout : Time)
    (fuel : Nat) : Option STResult :=
  let dirEvents : List Event :=
    if direction ∈ validDirections then [] else [.warnInvalidDirection direction]
  let d := if direction ∈ validDirections then direction else "left"
  if ¬ validLine rows ln then
    some ⟨dirEvents ++ [.warnInvalidLine ln], false, 0, none⟩
  else if text.length ≤ width then
    some ⟨dirEvents ++ [.renderText text ln], false, 0, none⟩
  else
    let numShifts := text.length - width
    let endT : ETime := if 0 < timeout then .fin (clk 0 + timeout) else .inf
    let idx0 : Nat := if 0 < timeout then 1 else 0
    let phases := scrollTextPhases d numShifts
    match stLoop clk text width ln endT phases loops fuel 0
        ⟨idx0, dirEvents ++ [.clearLine ln]⟩ with
    | none => none
    | some (r, brk) =>
      let nowF := clk r.idx
      if ETime.qle nowF endT then
        some ⟨r.events ++ [.renderText (text.take width) ln], true, r.idx, brk⟩
      else
        some ⟨r.events, false, r.idx, brk⟩

example : computePhases 3 "left" = [[0, 1, 2, 3]] := by decide
example : computePhases 3 "right" = [[3, 2, 1, 0]] := by decide
example : computePhases 3 "both_lr" = [[0, 1, 2, 3], [2, 1, 0]] := by decide
example : computePhases 3 "both_rl" = [[3, 2, 1, 0], [1, 2, 3]] := by decide
example : computePhases 3 "up" = [[0, 1, 2, 3]] := by decide
example : computePhases 0 "both_lr" = [[0], []] := by decide

/-! ## Helper lemmas -/

theorem pyRangeDown_natCast (s : Nat) :
    pyRangeDown (s : Int) = (List.range (s + 1)).reverse := by
  unfold pyRangeDown
  rw [if_neg (by omega), Int.toNat_natCast]

theorem pyRangeDown_natCast_sub_one (s : Nat) :
    pyRangeDown ((s : Int) - 1) = (List.range s).reverse := by
  cases s with
  | zero => rfl
  | succ k =>
    unfold pyRangeDown
    rw [if_neg (by omega)]
    congr 2
    omega

theorem mem_validDirections (d : String) :
    d ∈ validDirections ↔ d = "left" ∨ d = "right" ∨ d = "both_lr" ∨ d = "both_rl" := by
  simp [validDirections]

theorem computePhases_eq_specPlan (shifts : Nat) (d : String) :
    computePhases shifts d = specPlan d shifts := by
  by_cases h : d ∈ validDirections
  · rcases (mem_validDirections d).mp h with h1 | h1 | h1 | h1 <;> subst h1 <;>
      simp [computePhases, specPlan, validDirections, pyRangeDown_natCast,
        pyRangeDown_natCast_sub_one]
  · have h1 : d ≠ "left" := by rintro rfl; exact h (by decide)
    have h2 : d ≠ "right" := by rintro rfl; exact h (by decide)
    have h3 : d ≠ "both_lr" := by rintro rfl; exact h (by decide)
    have h4 : d ≠ "both_rl" := by rintro rfl; exact h (by decide)
    simp [computePhases, specPlan, h, h1, h2, h3, h4]

theorem computePhases_eq_scrollTextPhases (shifts : Nat) (d : String) :
    computePhases shifts d
      = scrollTextPhases (if d ∈ validDirections then d else "left") shifts := rfl

theorem computePhases_length_pos (shifts : Nat) (d : String) :
    0 < (computePhases shifts d).length := by
  rw [computePhases_eq_specPlan]
  unfold specPlan
  repeat' split
  all_goals simp

theorem computePhases_head_length (shifts : Nat) (d : String) :
    ((computePhases shifts d).getD 0 []).length = shifts + 1 := by
  rw [computePhases_eq_specPlan]
  unfold specPlan
  repeat' split
  all_goals simp

theorem findNonemptyAux_spec :
    ∀ (phases : List (List Nat)) (fuel i j : Nat),
      findNonemptyAux phases fuel i = some j →
      j < phases.length ∧ phases.getD j [] ≠ [] := by
  intro phases fuel
  induction fuel with
  | zero =>
    intro i j h
    exact absurd h (by simp [findNonemptyAux])
  | succ n ih =>
    intro i j h
    unfold findNonemptyAux at h
    by_cases hi : i < phases.length
    · rw [dif_pos hi] at h
      by_cases hne : phases.get ⟨i, hi⟩ ≠ []
      · rw [if_pos hne] at h
        obtain rfl : i = j := by simpa using h
        refine ⟨hi, ?_⟩
        rw [List.getD_eq_getElem?_getD, List.getElem?_eq_getElem hi, Option.getD_some]
        rw [List.get_eq_getElem] at hne
        exact hne
      · rw [if_neg hne] at h
        exact ih (i + 1) j h
    · rw [dif_neg hi] at h
      exact absurd h (by simp)

theorem findNonempty_spec {phases : List (List Nat)} {i j : Nat}
    (h : findNonempty phases i = some j) :
    j < phases.length ∧ phases.getD j [] ≠ [] :=
  findNonemptyAux_spec phases (phases.length - i) i j h

theorem findNonempty_zero {phases : List (List Nat)}
    (hlen : 0 < phases.length) (hne : phases.getD 0 [] ≠ []) :
    findNonempty phases 0 = some 0 := by
  have hg : phases.get ⟨0, hlen⟩ ≠ [] := by
    rw [List.getD_eq_getElem?_getD, List.getElem?_eq_getElem hlen, Option.getD_some] at hne
    rw [List.get_eq_getElem]
    exact hne
  unfold findNonempty
  obtain ⟨m, hm⟩ : ∃ m, phases.length = m + 1 := ⟨phases.length - 1, by omega⟩
  rw [Nat.sub_zero, hm]
  unfold findNonemptyAux
  rw [dif_pos (by omega), if_pos]
  rw [List.get_eq_getElem] at hg ⊢
  exact hg

theorem findNonempty_zero_computePhases (shifts : Nat) (d : String) :
    findNonempty (computePhases shifts d) 0 = some 0 :=
  findNonempty_zero (computePhases_length_pos shifts d)
    (by rw [← List.length_pos_iff_ne_nil, computePhases_head_length]; omega)

/-- Generic preservation along a left fold. -/
theorem foldl_preserve {α β : Type} (P : α → Prop) (f : α → β → α)
    (l : List β) (a : α) (ha : P a) (hf : ∀ x b, P x → P (f x b)) :
    P (l.foldl f a) := by
  induction l generalizing a with
  | nil => exact ha
  | cons b rest ih => exact ih (f a b) (hf a b ha)

theorem lookupD_mem {d : List (Int × LineState)} {k : Int} {v : LineState}
    (h : lookupD d k = some v) : (k, v) ∈ d := by
  induction d with
  | nil => simp [lookupD] at h
  | cons p rest ih =>
    unfold lookupD at h
    by_cases hk : p.1 = k
    · rw [if_pos hk] at h
      rcases p with ⟨a, b⟩
      obtain rfl : b = v := by simpa using h
      subst hk
      exact List.mem_cons_self _ _
    · rw [if_neg hk] at h
      exact List.mem_cons_of_mem _ (ih h)

theorem mem_setD {d : List (Int × LineState)} {k : Int} {v : LineState}
    {p : Int × LineState} (h : p ∈ setD d k v) : p ∈ d ∨ p = (k, v) := by
  induction d with
  | nil => simpa [setD] using h
  | cons q rest ih =>
    unfold setD at h
    by_cases hk : q.1 = k
    · rw [if_pos hk] at h
      rcases List.mem_cons.mp h with h1 | h1
      · right; exact h1
      · left; exact List.mem_cons_of_mem _ h1
    · rw [if_neg hk] at h
      rcases List.mem_cons.mp h with h1 | h1
      · left; exact List.mem_cons.mpr (Or.inl h1)
      · rcases ih h1 with h2 | h2
        · left; exact List.mem_cons_of_mem _ h2
        · right; exact h2

/-! ## Reachability invariant for animated lines -/

/-- Invariant of every `line_states` entry: either the line is finished,
or it is a scrolling entry whose stored phase table is exactly the one
computed from its config and whose phase / frame cursors are in bounds
(the frame cursor is only meaningful outside `awaiting_end_delay`). -/
def Inv (width : Nat) (ls : LineState) : Prop :=
  ls.state = .finished ∨
  ((width < ls.config.text.length ∧
    ls.all_phases_indices =
      computePhases (ls.config.text.length - width) ls.config.direction) ∧
   (ls.state ≠ .awaiting_end_delay →
     ls.current_phase_idx < ls.all_phases_indices.length ∧
     ls.current_frame_in_phase_idx <
       (ls.all_phases_indices.getD ls.current_phase_idx []).length))

theorem inv_lineEntry (width : Nat) (now : Time) (c : ScrollLine) :
    Inv width (lineEntry width now c) := by
  unfold lineEntry
  by_cases hlen : c.text.length ≤ width
  · rw [if_pos hlen]
    left
    rfl
  · rw [if_neg hlen]
    simp only [findNonempty_zero_computePhases]
    right
    dsimp only
    refine ⟨⟨by omega, rfl⟩, fun _ => ⟨computePhases_length_pos _ _, ?_⟩⟩
    rw [computePhases_head_length]
    omega

theorem inv_processLine (width : Nat) (now : Time) (ln : Int) {s : LineState}
    (h : Inv width s) : Inv width (processLine width now ln s).st := by
  unfold processLine
  split
  · exact h
  split
  · left
    rfl
  rename_i hskip hdl
  split
  · -- awaiting_first_scroll → scrolling
    rename_i hst
    rcases h with h | ⟨hok, hb⟩
    · rw [hst] at h; cases h
    · exact Or.inr ⟨hok, fun _ => hb (by rw [hst]; intro hc; cases hc)⟩
  · -- scrolling
    rename_i hst
    rcases h with h | ⟨hok, hb⟩
    · rw [hst] at h; cases h
    have hbounds := hb (by rw [hst]; intro hc; cases hc)
    dsimp only
    split
    · rename_i hfr
      split
      · -- more frames in this phase
        rename_i hfr2
        exact Or.inr ⟨hok, fun _ => ⟨hbounds.1, hfr2⟩⟩
      · rename_i hfr2
        split
        · -- next non-empty phase found
          rename_i nidx hfind
          have hsp := findNonempty_spec hfind
          refine Or.inr ⟨hok, fun _ => ⟨hsp.1, ?_⟩⟩
          have hpos := List.length_pos_iff_ne_nil.mpr hsp.2
          simpa using hpos
        · -- no further phase: awaiting_end_delay
          exact Or.inr ⟨hok, fun hc => absurd rfl hc⟩
    · -- frame index out of bounds: force-finished
      left
      rfl
  · -- awaiting_phase_delay → scrolling
    rename_i hst
    rcases h with h | ⟨hok, hb⟩
    · rw [hst] at h; cases h
    · exact Or.inr ⟨hok, fun _ => hb (by rw [hst]; intro hc; cases hc)⟩
  · -- awaiting_end_delay
    rename_i hst
    rcases h with h | ⟨hok, hb⟩
    · rw [hst] at h; cases h
    dsimp only
    split
    · left
      rfl
    · split
      · rename_i fpi hfind
        rw [hok.2, findNonempty_zero_computePhases] at hfind
        obtain rfl : 0 = fpi := by simpa using hfind
        refine Or.inr ⟨hok, fun _ => ⟨?_, ?_⟩⟩
        · rw [hok.2]
          exact computePhases_length_pos _ _
        · dsimp only
          rw [hok.2, computePhases_head_length]
          have := hok.1
          omega
      · left
        rfl
  · -- finished (unreachable through the guard): identity
    exact h

theorem processLine_no_oob (width : Nat) (now : Time) (ln : Int) {s : LineState}
    (h : Inv width s) :
    ((processLine width now ln s).events.all fun e => ! e.isOOB) = true := by
  unfold processLine
  split
  · simp
  split
  · split <;> simp [Event.isOOB]
  rename_i hskip hdl
  split
  · simp
  · -- scrolling
    rename_i hst
    rcases h with h | ⟨hok, hb⟩
    · rw [hst] at h; cases h
    have hbounds := hb (by rw [hst]; intro hc; cases hc)
    dsimp only
    split
    · split
      · simp [Event.isOOB]
      · split <;> simp [Event.isOOB]
    · -- the OOB branch contradicts the invariant
      rename_i hfr
      exact absurd hbounds.2 hfr
  · simp
  · -- awaiting_end_delay
    dsimp only
    split
    · split <;> simp [Event.isOOB]
    · split
      · simp [Event.isOOB]
      · split <;> simp [Event.isOOB]
  · simp

/-- All entries of a `line_states` dict satisfy the per-line invariant. -/
def DInv (width : Nat) (d : List (Int × LineState)) : Prop :=
  ∀ p ∈ d, Inv width p.2

theorem dinv_nil (width : Nat) : DInv width [] := by
  intro p hp
  cases hp

theorem dinv_setD {width : Nat} {d : List (Int × LineState)} {k : Int}
    {v : LineState} (hd : DInv width d) (hv : Inv width v) :
    DInv width (setD d k v) := by
  intro p hp
  rcases mem_setD hp with h1 | h1
  · exact hd p h1
  · rw [h1]
    exact hv

theorem dinv_setup (width rows : Nat) (now : Time) (configs : List ScrollLine) :
    DInv width (setup width rows now configs).line_states := by
  unfold setup
  have := foldl_preserve (fun st : SetupState => DInv width st.line_states)
    (setupStep width rows now) configs ⟨[], .inf, []⟩ (dinv_nil width) ?_
  · exact this
  · intro st c hst
    unfold setupStep
    split
    · exact dinv_setD hst (inv_lineEntry width now c)
    · exact hst

theorem tick_dinv_no_oob (width : Nat) (a b : Time) (s : SchedState)
    (hd : DInv width s.line_states) :
    DInv width (tick width a b s).1.line_states ∧
    (((tick width a b s).2.1.all fun e => ! e.isOOB) = true) := by
  unfold tick
  split
  · -- overall-deadline branch
    have hf := foldl_preserve
      (fun acc : List (Int × LineState) × List Event =>
        DInv width acc.1 ∧ ((acc.2.all fun e => ! e.isOOB) = true))
      (finishStep width) s.active (s.line_states, []) ⟨hd, by simp⟩ ?_
    · exact ⟨hf.1, hf.2⟩
    · intro acc ln hacc
      unfold finishStep
      split
      · rename_i st hlk
        refine ⟨dinv_setD hacc.1 (Or.inl rfl), ?_⟩
        rw [List.all_append, hacc.2, Bool.true_and]
        split <;> simp [Event.isOOB]
      · exact hacc
  · -- per-line processing branch
    have hf := foldl_preserve
      (fun acc : List (Int × LineState) × List Int × List Event =>
        DInv width acc.1 ∧ ((acc.2.2.all fun e => ! e.isOOB) = true))
      (processStep width
        (if ETime.qlt a (minNextAction s.line_states s.active) then b else a))
      s.active (s.line_states, s.active, []) ⟨hd, by simp⟩ ?_
    · exact ⟨hf.1, hf.2⟩
    · intro acc ln hacc
      unfold processStep
      split
      · rename_i st hlk
        have hst : Inv width st := hacc.1 _ (lookupD_mem hlk)
        refine ⟨dinv_setD hacc.1 (inv_processLine width _ ln hst), ?_⟩
        rw [List.all_append, hacc.2, Bool.true_and]
        exact processLine_no_oob width _ ln hst
      · exact hacc

theorem runLoop_dinv_no_oob (width : Nat) (sched : List (Time × Time))
    (s : SchedState) (hd : DInv width s.line_states) :
    DInv width (runLoop width sched s).1.line_states ∧
    (((runLoop width sched s).2.all fun e => ! e.isOOB) = true) := by
  induction sched generalizing s with
  | nil => exact ⟨hd, by simp [runLoop]⟩
  | cons ab rest ih =>
    rcases ab with ⟨a, b⟩
    unfold runLoop
    split
    · exact ⟨hd, by simp⟩
    · have ht := tick_dinv_no_oob width a b s hd
      dsimp only
      split
      · exact ht
      · have hr := ih _ ht.1
        refine ⟨hr.1, ?_⟩
        dsimp only
        rw [List.all_append, ht.2, hr.2]
        rfl

theorem lineEvents_no_oob (width : Nat) (c : ScrollLine) :
    ((lineEvents width c).all fun e => ! e.isOOB) = true := by
  unfold lineEvents
  split
  · simp [Event.isOOB]
  · dsimp only
    split <;> simp [Event.isOOB]

theorem setup_no_oob (width rows : Nat) (now : Time)
    (configs : List ScrollLine) :
    (((setup width rows now configs).events.all fun e => ! e.isOOB) = true) := by
  unfold setup
  have := foldl_preserve
    (fun st : SetupState => ((st.events.all fun e => ! e.isOOB) = true))
    (setupStep width rows now) configs ⟨[], .inf, []⟩ (by simp) ?_
  · exact this
  · intro st c hst
    unfold setupStep
    split
    · dsimp only
      rw [List.all_append, hst, Bool.true_and]
      exact lineEvents_no_oob width c
    · dsimp only
      rw [List.all_append, hst, Bool.true_and]
      simp [Event.isOOB]

theorem safeguard_no_oob (width : Nat) (d : List (Int × LineState))
    (configs : List ScrollLine) :
    ((safeguard width d configs).all fun e => ! e.isOOB) = true := by
  unfold safeguard
  have hf := foldl_preserve
    (fun evs : List Event => ((evs.all fun e => ! e.isOOB) = true))
    (safeguardStep width d) configs [] (by simp) ?_
  · exact hf
  · intro evs c hevs
    unfold safeguardStep
    split
    · split
      · rw [List.all_append, hevs, Bool.true_and]
        simp [Event.isOOB]
      · exact hevs
    · exact hevs

/-- Recognizer for the two warning prints. -/
def Event.isWarning : Event → Bool
  | .warnInvalidLine _ => true
  | .warnInvalidDirection _ => true
  | _ => false

theorem stFrames_mono (clk : Nat → Time) (text : List Char) (width : Nat)
    (ln : Int) (endT : ETime) (l : List Nat) (r : STRun) (first : Bool) :
    r.idx ≤ (stFrames clk text width ln endT l r first).1.idx ∧
    ∃ t, (stFrames clk text width ln endT l r first).1.events = r.events ++ t := by
  induction l generalizing r first with
  | nil => exact ⟨Nat.le_refl _, [], by simp [stFrames]⟩
  | cons i rest ih =>
    unfold stFrames
    dsimp only
    split
    · exact ⟨Nat.le_succ _, [], by simp⟩
    · have h := ih ⟨r.idx + 1, r.events ++ [.renderText (scrollSlice text width i) ln]⟩ false
      have h1 := h.1
      dsimp only at h1
      refine ⟨by omega, ?_⟩
      obtain ⟨t, ht⟩ := h.2
      exact ⟨[.renderText (scrollSlice text width i) ln] ++ t, by
        rw [ht]; simp⟩

theorem stPhases_mono (clk : Nat → Time) (text : List Char) (width : Nat)
    (ln : Int) (endT : ETime) (phases : List (List Nat)) (r : STRun)
    (first : Bool) :
    r.idx ≤ (stPhases clk text width ln endT phases r first).1.idx ∧
    ∃ t, (stPhases clk text width ln endT phases r first).1.events
      = r.events ++ t := by
  induction phases generalizing r first with
  | nil => exact ⟨Nat.le_refl _, [], by simp [stPhases]⟩
  | cons ph rest ih =>
    unfold stPhases
    dsimp only
    split
    · exact ⟨Nat.le_succ _, [], by simp⟩
    · have h1 := stFrames_mono clk text width ln endT ph ⟨r.idx + 1, r.events⟩ first
      have h2 := ih (stFrames clk text width ln endT ph ⟨r.idx + 1, r.events⟩ first).1
        (stFrames clk text width ln endT ph ⟨r.idx + 1, r.events⟩ first).2
      have ha := h1.1
      have hb := h2.1
      dsimp only at ha
      refine ⟨by omega, ?_⟩
      obtain ⟨t1, ht1⟩ := h1.2
      obtain ⟨t2, ht2⟩ := h2.2
      exact ⟨t1 ++ t2, by rw [ht2, ht1]; simp⟩

theorem stLoop_mono (clk : Nat → Time) (text : List Char) (width : Nat)
    (ln : Int) (endT : ETime) (phases : List (List Nat)) (loops : Int) :
    ∀ (fuel : Nat) (cl : Int) (r : STRun) (r' : STRun) (brk : Option Nat),
      stLoop clk text width ln endT phases loops fuel cl r = some (r', brk) →
      r.idx ≤ r'.idx ∧ (∃ t, r'.events = r.events ++ t) ∧
      ∀ k, brk = some k → k < r'.idx ∧ ETime.ltq endT (clk k) = true := by
  intro fuel
  induction fuel with
  | zero =>
    intro cl r r' brk h
    unfold stLoop at h
    split at h
    · obtain ⟨rfl, rfl⟩ : r = r' ∧ (none : Option Nat) = brk := by
        constructor <;> [skip; skip] <;> injection h with h1 <;>
          [exact congrArg Prod.fst h1; exact congrArg Prod.snd h1]
      exact ⟨Nat.le_refl _, ⟨[], by simp⟩, fun k hk => by cases hk⟩
    · cases h
  | succ fuel ih =>
    intro cl r r' brk h
    unfold stLoop at h
    split at h
    · obtain ⟨rfl, rfl⟩ : r = r' ∧ (none : Option Nat) = brk := by
        constructor <;> [skip; skip] <;> injection h with h1 <;>
          [exact congrArg Prod.fst h1; exact congrArg Prod.snd h1]
      exact ⟨Nat.le_refl _, ⟨[], by simp⟩, fun k hk => by cases hk⟩
    · dsimp only at h
      split at h
      · rename_i hto
        obtain ⟨h1, h2⟩ : (⟨r.idx + 1, r.events⟩ : STRun) = r' ∧
            (some r.idx : Option Nat) = brk := by
          constructor <;> injection h with h3 <;>
            [exact congrArg Prod.fst h3; exact congrArg Prod.snd h3]
        rw [← h1, ← h2]
        exact ⟨Nat.le_succ _, ⟨[], by simp⟩,
          fun k hk => by cases hk; exact ⟨by dsimp only; omega, hto⟩⟩
      · set r2 := stPhases clk text width ln endT phases ⟨r.idx + 1, r.events⟩ true
          with hr2
        have hm2 := stPhases_mono clk text width ln endT phases
          ⟨r.idx + 1, r.events⟩ true
        rw [← hr2] at hm2
        split at h
        · rename_i hto2
          obtain ⟨h1, h2⟩ : (⟨r2.1.idx + 1, r2.1.events⟩ : STRun) = r' ∧
              (some r2.1.idx : Option Nat) = brk := by
            constructor <;> injection h with h3 <;>
              [exact congrArg Prod.fst h3; exact congrArg Prod.snd h3]
          rw [← h1, ← h2]
          have hi := hm2.1
          dsimp only at hi
          refine ⟨by dsimp only; omega, ?_, ?_⟩
          · obtain ⟨t, ht⟩ := hm2.2
            exact ⟨t, by dsimp only; rw [ht]⟩
          · intro k hk
            cases hk
            exact ⟨by dsimp only; omega, hto2⟩
        · split at h
          · obtain ⟨h1, h2⟩ : (⟨r2.1.idx + 1, r2.1.events⟩ : STRun) = r' ∧
                (none : Option Nat) = brk := by
              constructor <;> injection h with h3 <;>
                [exact congrArg Prod.fst h3; exact congrArg Prod.snd h3]
            rw [← h1, ← h2]
            have hi := hm2.1
            dsimp only at hi
            refine ⟨by dsimp only; omega, ?_,
              fun k hk => by cases hk⟩
            obtain ⟨t, ht⟩ := hm2.2
            exact ⟨t, by dsimp only; rw [ht]⟩
          · have hrec := ih (cl + 1) ⟨r2.1.idx + 1, r2.1.events⟩ r' brk h
            obtain ⟨t1, ht1⟩ := hm2.2
            obtain ⟨t2, ht2⟩ := hrec.2.1
            have hi1 := hm2.1
            have hi2 := hrec.1
            dsimp only at hi1 hi2
            refine ⟨by omega,
              ⟨t1 ++ t2, by rw [ht2]; dsimp only; rw [ht1]; simp⟩, hrec.2.2⟩

/-! ## Branch equations for `processLine` and the setup entries -/

theorem processLine_eq_skip {width : Nat} {now : Time} {ln : Int}
    {s : LineState}
    (h : (decide (s.state = .finished) || ETime.qlt now s.next_action_time) = true) :
    processLine width now ln s = ⟨s, [], false⟩ := by
  unfold processLine
  rw [if_pos h]

theorem processLine_eq_deadline {width : Nat} {now : Time} {ln : Int}
    {s : LineState}
    (h1 : (decide (s.state = .finished) || ETime.qlt now s.next_action_time) = false)
    (h2 : ETime.leq s.end_time now = true) :
    processLine width now ln s =
      ⟨{ s with state := .finished, next_action_time := .inf },
       if width < s.config.text.length then
         [.renderText (s.config.text.take width) ln]
       else [],
       true⟩ := by
  unfold processLine
  rw [if_neg (by simp [h1]), if_pos h2]

theorem processLine_eq_afs {width : Nat} {now : Time} {ln : Int}
    {s : LineState} (hst : s.state = .awaiting_first_scroll)
    (h1 : ETime.qlt now s.next_action_time = false)
    (h2 : ETime.leq s.end_time now = false) :
    processLine width now ln s =
      ⟨{ s with state := .scrolling, next_action_time := .fin now }, [], false⟩ := by
  unfold processLine
  rw [if_neg (by simp [h1, hst]), if_neg (by simp [h2]), hst]

theorem processLine_eq_apd {width : Nat} {now : Time} {ln : Int}
    {s : LineState} (hst : s.state = .awaiting_phase_delay)
    (h1 : ETime.qlt now s.next_action_time = false)
    (h2 : ETime.leq s.end_time now = false) :
    processLine width now ln s =
      ⟨{ s with state := .scrolling, next_action_time := .fin now }, [], false⟩ := by
  unfold processLine
  rw [if_neg (by simp [h1, hst]), if_neg (by simp [h2]), hst]

theorem processLine_eq_end_delay {width : Nat} {now : Time} {ln : Int}
    {s : LineState} (hst : s.state = .awaiting_end_delay)
    (h1 : ETime.qlt now s.next_action_time = false)
    (h2 : ETime.leq s.end_time now = false) :
    processLine width now ln s =
      if (decide (s.config.loops ≠ 0)
          && decide (s.config.loops ≤ s.current_loop + 1)) = true then
        ⟨{ s with
             current_loop := s.current_loop + 1
             state := .finished
             next_action_time := .inf },
         if width < s.config.text.length then
           [.renderText (s.config.text.take width) ln]
         else [],
         true⟩
      else
        match findNonempty s.all_phases_indices 0 with
        | some fpi =>
          ⟨{ s with
               current_loop := s.current_loop + 1
               state := .awaiting_first_scroll
               next_action_time := .fin (now + s.config.start_delay)
               current_phase_idx := fpi
               current_frame_in_phase_idx := 1 },
           [.renderText
             (scrollSlice s.config.text width
               ((s.all_phases_indices.getD fpi []).getD 0 0)) ln],
           false⟩
        | none =>
          ⟨{ s with
               current_loop := s.current_loop + 1
               state := .finished
               next_action_time := .inf
               current_phase_idx := 0
               current_frame_in_phase_idx := 0 },
           .errorNoPhases ln ::
             (if width < s.config.text.length then
               [.renderText (s.config.text.take width) ln]
             else []),
           true⟩ := by
  unfold processLine
  rw [if_neg (by simp [h1, hst]), if_neg (by simp [h2]), hst]
  dsimp only
  rw [h2, Bool.or_false]

theorem lineEntry_eq_scroll {width : Nat} {now : Time} {c : ScrollLine}
    (h : width < c.text.length) :
    lineEntry width now c =
      { config := c
        state := .awaiting_first_scroll
        next_action_time := .fin (now + c.start_delay)
        current_loop := 0
        current_phase_idx := 0
        current_frame_in_phase_idx := 1
        all_phases_indices := computePhases (c.text.length - width) c.direction
        end_time := endTimeFor now c } := by
  unfold lineEntry
  rw [if_neg (by omega)]
  simp only [findNonempty_zero_computePhases]

theorem lineEvents_eq_scroll {width : Nat} {c : ScrollLine}
    (h : width < c.text.length) :
    lineEvents width c =
      [.clearLine c.line,
       .renderText
         (scrollSlice c.text width
           (((computePhases (c.text.length - width) c.direction).getD 0 []).getD 0 0))
         c.line] := by
  unfold lineEvents
  rw [if_neg (by omega)]
  simp only [findNonempty_zero_computePhases]

/-! ## Claim C4 -/

/-- C4: whenever `animated_display` processes a due line (next-action time
≤ now) whose per-line deadline has passed (now ≥ end_time), the deadline
check runs before any state-specific transition: the static
first-width-characters frame is rendered (only if the text scrolls), the
line becomes `finished` with next-action `+∞` and is removed from the
active set, and no state-machine step runs for it at that tick; once
finished, later ticks skip the line entirely. -/
theorem c4_deadline_precedence (width : Nat) (now : Time) (ln : Int)
    (s : LineState)
    (hact : s.state ≠ .finished)
    (hdue : ETime.qlt now s.next_action_time = false)
    (hdl : ETime.leq s.end_time now = true) :
    processLine width now ln s =
      ⟨{ s with state := .finished, next_action_time := .inf },
       if width < s.config.text.length then
         [.renderText (s.config.text.take width) ln]
       else [],
       true⟩ ∧
    ∀ (s2 : LineState) (now2 : Time), s2.state = .finished →
      processLine width now2 ln s2 = ⟨s2, [], false⟩ := by
  constructor
  · exact processLine_eq_deadline (by simp [hact, hdue]) hdl
  · intro s2 now2 hfin
    exact processLine_eq_skip (by simp [hfin])

/-- C4 witness: a concrete due, deadline-passed scrolling line. -/
theorem c4_deadline_precedence_witness :
    (let s : LineState :=
      { config := { text := "HELLO WORLD".toList, line := 1 }
        state := .scrolling
        next_action_time := .fin 3
        current_loop := 0
        current_phase_idx := 0
        current_frame_in_phase_idx := 1
        all_phases_indices := [[0, 1, 2, 3]]
        end_time := .fin 4 }
     processLine 8 5 1 s =
       ⟨{ s with state := .finished, next_action_time := .inf },
        if 8 < s.config.text.length then
          [.renderText (s.config.text.take 8) 1]
        else [],
        true⟩ ∧
     ∀ (s2 : LineState) (now2 : Time), s2.state = .finished →
       processLine 8 now2 1 s2 = ⟨s2, [], false⟩) :=
  c4_deadline_precedence 8 5 1 _ (by decide) (by decide) (by decide)

/-! ## Claim C2 -/

/-- C2: the loop counter starts at 0 at setup and is incremented only by
the `awaiting_end_delay` step; when that step runs (due, before the
per-line deadline) on a well-formed line, the line finishes exactly when
`loops ≠ 0` and the incremented counter reaches `loops`, rendering the
terminal static frame of the first `width` characters; hence for
`loops = N > 0` a line still within its loop budget finishes through this
step exactly when the incremented counter equals `N`, and for `loops = 0`
no step before the per-line deadline ever finishes the line. -/
theorem c2_loop_counting (width : Nat) :
    (∀ (now : Time) (c : ScrollLine), (lineEntry width now c).current_loop = 0) ∧
    (∀ (now : Time) (ln : Int) (s : LineState), s.state ≠ .awaiting_end_delay →
      (processLine width now ln s).st.current_loop = s.current_loop) ∧
    (∀ (now : Time) (ln : Int) (s : LineState),
      s.state = .awaiting_end_delay →
      ETime.qlt now s.next_action_time = false →
      ETime.leq s.end_time now = false →
      Inv width s →
      ((processLine width now ln s).st.current_loop = s.current_loop + 1 ∧
       ((processLine width now ln s).st.state = .finished ↔
         (s.config.loops ≠ 0 ∧ s.config.loops ≤ s.current_loop + 1)) ∧
       ((processLine width now ln s).st.state = .finished →
         (processLine width now ln s).events
           = [.renderText (s.config.text.take width) ln]))) ∧
    (∀ (now : Time) (ln : Int) (s : LineState),
      s.config.loops = 0 → Inv width s →
      ETime.leq s.end_time now = false →
      s.state ≠ .finished →
      (processLine width now ln s).st.state ≠ .finished) ∧
    (∀ (now : Time) (ln : Int) (s : LineState),
      0 < s.config.loops → s.current_loop < s.config.loops →
      s.state = .awaiting_end_delay →
      ETime.qlt now s.next_action_time = false →
      ETime.leq s.end_time now = false →
      Inv width s →
      ((processLine width now ln s).st.state = .finished ↔
        s.current_loop + 1 = s.config.loops)) := by
  have hscroll : ∀ (s : LineState), Inv width s → s.state = .awaiting_end_delay →
      width < s.config.text.length ∧
      s.all_phases_indices =
        computePhases (s.config.text.length - width) s.config.direction := by
    intro s hinv hst
    rcases hinv with h | ⟨hok, _⟩
    · rw [hst] at h; cases h
    · exact hok
  have hmain : ∀ (now : Time) (ln : Int) (s : LineState),
      s.state = .awaiting_end_delay →
      ETime.qlt now s.next_action_time = false →
      ETime.leq s.end_time now = false →
      Inv width s →
      ((processLine width now ln s).st.current_loop = s.current_loop + 1 ∧
       ((processLine width now ln s).st.state = .finished ↔
         (s.config.loops ≠ 0 ∧ s.config.loops ≤ s.current_loop + 1)) ∧
       ((processLine width now ln s).st.state = .finished →
         (processLine width now ln s).events
           = [.renderText (s.config.text.take width) ln])) := by
    intro now ln s hst hdue hdl hinv
    obtain ⟨hw, hph⟩ := hscroll s hinv hst
    rw [processLine_eq_end_delay hst hdue hdl]
    rw [hph, findNonempty_zero_computePhases]
    by_cases hl : (decide (s.config.loops ≠ 0)
        && decide (s.config.loops ≤ s.current_loop + 1)) = true
    · rw [if_pos hl]
      dsimp only
      simp only [Bool.and_eq_true, decide_eq_true_eq] at hl
      refine ⟨rfl, ⟨fun _ => hl, fun _ => rfl⟩, fun _ => ?_⟩
      rw [if_pos hw]
    · rw [if_neg hl]
      dsimp only
      simp only [Bool.and_eq_true, decide_eq_true_eq, not_and_or] at hl
      refine ⟨rfl, ⟨fun h => absurd h (by decide), fun h => ?_⟩,
        fun h => absurd h (by decide)⟩
      rcases hl with hl | hl
      · exact absurd h.1 (by simpa using hl)
      · exact absurd h.2 hl
  refine ⟨?_, ?_, hmain, ?_, ?_⟩
  · intro now c
    unfold lineEntry
    split
    · rfl
    · dsimp only
      split <;> rfl
  · intro now ln s hst
    unfold processLine
    split
    · rfl
    split
    · rfl
    split
    · rfl
    · dsimp only
      split
      · split
        · rfl
        · split <;> rfl
      · rfl
    · rfl
    · rename_i h5
      exact absurd h5 hst
    · rfl
  · -- loops = 0: no finish before the per-line deadline
    intro now ln s hz hinv hdl hact
    by_cases hdue : ETime.qlt now s.next_action_time = true
    · rw [processLine_eq_skip (by simp [hdue])]
      exact hact
    rw [Bool.not_eq_true] at hdue
    rcases hinv with h | ⟨hok, hb⟩
    · exact absurd h hact
    rcases hs : s.state with h1 | h1 | h1 | h1 | h1
    · rw [processLine_eq_afs hs hdue hdl]
      intro hc
      cases hc
    · -- scrolling
      have hbounds := hb (by rw [hs]; intro hc; cases hc)
      unfold processLine
      rw [if_neg (by simp [hs, hdue]), if_neg (by simp [hdl]), hs]
      dsimp only
      rw [if_pos hbounds.2]
      split
      · intro hc
        cases hc
      · split
        · intro hc
          cases hc
        · intro hc
          cases hc
    · rw [processLine_eq_apd hs hdue hdl]
      intro hc
      cases hc
    · rw [processLine_eq_end_delay hs hdue hdl]
      rw [hok.2, findNonempty_zero_computePhases]
      rw [if_neg (by simp [hz])]
      intro hc
      cases hc
    · exact absurd hs hact
  · -- exactness for 0 < loops
    intro now ln s hpos hlt hst hdue hdl hinv
    have h := (hmain now ln s hst hdue hdl hinv).2.1
    rw [h]
    constructor
    · intro hh
      omega
    · intro hh
      omega

/-- C2 witness: a concrete `awaiting_end_delay` line with `loops = 2`
completing its first loop. -/
theorem c2_loop_counting_witness :
    (let s : LineState :=
      { config := { text := "HELLO WORLD".toList, line := 1, loops := 2 }
        state := .awaiting_end_delay
        next_action_time := .fin 3
        current_loop := 0
        current_phase_idx := 1
        current_frame_in_phase_idx := 4
        all_phases_indices := [[0, 1, 2, 3]]
        end_time := .inf }
     (lineEntry 8 0 s.config).current_loop = 0 ∧
     s.state = .awaiting_end_delay ∧
     ETime.qlt 5 s.next_action_time = false ∧
     ETime.leq s.end_time 5 = false ∧
     Inv 8 s ∧
     ((processLine 8 5 1 s).st.current_loop = s.current_loop + 1 ∧
      ((processLine 8 5 1 s).st.state = .finished ↔
        (s.config.loops ≠ 0 ∧ s.config.loops ≤ s.current_loop + 1)) ∧
      ((processLine 8 5 1 s).st.state = .finished →
        (processLine 8 5 1 s).events
          = [.renderText (s.config.text.take 8) 1])) ∧
     ((processLine 8 5 1 s).st.state = .finished ↔
       s.current_loop + 1 = s.config.loops)) := by
  refine ⟨(c2_loop_counting 8).1 0 _, rfl, rfl, rfl, ?hinv, ?_, ?_⟩
  case hinv => exact Or.inr ⟨⟨by decide, by decide⟩, fun h => absurd rfl h⟩
  · exact (c2_loop_counting 8).2.2.1 5 1 _ rfl rfl rfl
      (Or.inr ⟨⟨by decide, by decide⟩, fun h => absurd rfl h⟩)
  · exact (c2_loop_counting 8).2.2.2.2 5 1 _ (by decide) (by decide) rfl rfl rfl
      (Or.inr ⟨⟨by decide, by decide⟩, fun h => absurd rfl h⟩)

/-! ## Claim C5 -/

/-- C5 counterexample: with direction `"right"` (text `"ABCDEFGHIJ"`,
width 8, shifts 2) the frame rendered at setup is the window at text
offset 2 (`"CDEFGHIJ"`), not the offset-0 window `text[0..8) =
"ABCDEFGH"` the claim asserts for every direction; no event of the setup
renders the offset-0 window. -/
theorem c5_counterexample :
    (let c : ScrollLine :=
      { text := "ABCDEFGHIJ".toList, line := 1, direction := "right" }
     lineEvents 8 c = [.clearLine 1, .renderText "CDEFGHIJ".toList 1] ∧
     Event.renderText ("ABCDEFGHIJ".toList.take 8) 1 ∉ lineEvents 8 c ∧
     (setup 8 2 0 [c]).events = lineEvents 8 c) := by decide

/-- C5 (amended): at setup, and again whenever a new loop begins after
`end_delay` with loops remaining, the first frame of the first non-empty
phase (text offset `phases[0][0]`: offset 0 for `left`/`both_lr`, offset
`shifts` for `right`/`both_rl`) is rendered immediately, not gated by any
delay; the line enters `awaiting_first_scroll` with next-action
`now + start_delay` and frame index primed to 1. -/
theorem c5_initial_frame (width : Nat) (now : Time) (c : ScrollLine)
    (h : width < c.text.length) :
    ((lineEntry width now c).state = .awaiting_first_scroll ∧
     (lineEntry width now c).next_action_time = .fin (now + c.start_delay) ∧
     (lineEntry width now c).current_frame_in_phase_idx = 1 ∧
     lineEvents width c =
       [.clearLine c.line,
        .renderText
          (scrollSlice c.text width
            (((computePhases (c.text.length - width) c.direction).getD 0 []).getD 0 0))
          c.line]) ∧
    (∀ (now2 : Time) (ln : Int) (s : LineState),
      s.state = .awaiting_end_delay →
      ETime.qlt now2 s.next_action_time = false →
      ETime.leq s.end_time now2 = false →
      (decide (s.config.loops ≠ 0)
        && decide (s.config.loops ≤ s.current_loop + 1)) ≠ true →
      Inv width s →
      processLine width now2 ln s =
        ⟨{ s with
             current_loop := s.current_loop + 1
             state := .awaiting_first_scroll
             next_action_time := .fin (now2 + s.config.start_delay)
             current_phase_idx := 0
             current_frame_in_phase_idx := 1 },
         [.renderText
           (scrollSlice s.config.text width
             ((s.all_phases_indices.getD 0 []).getD 0 0)) ln],
         false⟩) := by
  constructor
  · rw [lineEntry_eq_scroll h, lineEvents_eq_scroll h]
    exact ⟨rfl, rfl, rfl, rfl⟩
  · intro now2 ln s hst hdue hdl hloops hinv
    have hok : width < s.config.text.length ∧
        s.all_phases_indices =
          computePhases (s.config.text.length - width) s.config.direction := by
      rcases hinv with h1 | ⟨h1, _⟩
      · rw [hst] at h1; cases h1
      · exact h1
    rw [processLine_eq_end_delay hst hdue hdl, if_neg hloops]
    have hfind : findNonempty s.all_phases_indices 0 = some 0 := by
      rw [hok.2]
      exact findNonempty_zero_computePhases _ _
    rw [hfind]

/-- C5 witness: a concrete scrollable config and a concrete
`awaiting_end_delay` line with loops remaining. -/
theorem c5_initial_frame_witness :
    (let c : ScrollLine := { text := "ABCDEFGHIJ".toList, line := 1, direction := "right" }
     let s : LineState :=
      { config := { text := "HELLO WORLD".toList, line := 1, loops := 3 }
        state := .awaiting_end_delay
        next_action_time := .fin 3
        current_loop := 0
        current_phase_idx := 1
        current_frame_in_phase_idx := 4
        all_phases_indices := [[0, 1, 2, 3]]
        end_time := .inf }
     (8 < c.text.length) ∧
     (((lineEntry 8 0 c).state = .awaiting_first_scroll ∧
       (lineEntry 8 0 c).next_action_time = .fin (0 + c.start_delay) ∧
       (lineEntry 8 0 c).current_frame_in_phase_idx = 1 ∧
       lineEvents 8 c =
         [.clearLine c.line,
          .renderText
            (scrollSlice c.text 8
              (((computePhases (c.text.length - 8) c.direction).getD 0 []).getD 0 0))
            c.line]) ∧
      processLine 8 5 1 s =
        ⟨{ s with
             current_loop := s.current_loop + 1
             state := .awaiting_first_scroll
             next_action_time := .fin (5 + s.config.start_delay)
             current_phase_idx := 0
             current_frame_in_phase_idx := 1 },
         [.renderText
           (scrollSlice s.config.text 8
             ((s.all_phases_indices.getD 0 []).getD 0 0)) 1],
         false⟩)) := by
  refine ⟨by decide, ?_, ?_⟩
  · exact (c5_initial_frame 8 0 _ (by decide)).1
  · exact (c5_initial_frame 8 0
      { text := "ABCDEFGHIJ".toList, line := 1, direction := "right" }
      (by decide)).2 5 1 _ rfl rfl rfl (by decide)
      (Or.inr ⟨⟨by decide, by decide⟩, fun hh => absurd rfl hh⟩)

/-! ## Dict and fold lemmas for the overall-deadline branch -/

theorem lookupD_setD_self (d : List (Int × LineState)) (k : Int) (v : LineState) :
    lookupD (setD d k v) k = some v := by
  induction d with
  | nil => simp [setD, lookupD]
  | cons p rest ih =>
    unfold setD
    by_cases hk : p.1 = k
    · rw [if_pos hk]
      simp [lookupD]
    · rw [if_neg hk]
      unfold lookupD
      rw [if_neg hk]
      exact ih

theorem lookupD_setD_ne (d : List (Int × LineState)) {k k' : Int}
    (v : LineState) (h : k' ≠ k) :
    lookupD (setD d k v) k' = lookupD d k' := by
  induction d with
  | nil =>
    have hkk : ¬ k = k' := fun hh => h hh.symm
    simp [setD, lookupD, hkk]
  | cons p rest ih =>
    unfold setD
    by_cases hk : p.1 = k
    · rw [if_pos hk]
      unfold lookupD
      rw [if_neg (fun hh => h hh.symm), if_neg (by rw [hk]; exact fun hh => h hh.symm)]
    · rw [if_neg hk]
      unfold lookupD
      by_cases hk2 : p.1 = k'
      · rw [if_pos hk2, if_pos hk2]
      · rw [if_neg hk2, if_neg hk2]
        exact ih

theorem flatMap_congr_mem {α β : Type} {l : List α} {f g : α → List β}
    (h : ∀ x ∈ l, f x = g x) : l.flatMap f = l.flatMap g := by
  induction l with
  | nil => rfl
  | cons x rest ih =>
    simp only [List.flatMap_cons]
    rw [h x (List.mem_cons_self _ _), ih (fun y hy => h y (List.mem_cons_of_mem _ hy))]

theorem finishStep_eq_some {width : Nat} {d : List (Int × LineState)}
    {evs : List Event} {a : Int} {st : LineState}
    (h : lookupD d a = some st) :
    finishStep width (d, evs) a =
      (setD d a { st with state := .finished, next_action_time := .inf },
       evs ++
         (if width < st.config.text.length then
           [Event.renderText (st.config.text.take width) a]
         else [])) := by
  unfold finishStep
  dsimp only
  rw [h]

theorem finishStep_eq_none {width : Nat} {d : List (Int × LineState)}
    {evs : List Event} {a : Int} (h : lookupD d a = none) :
    finishStep width (d, evs) a = (d, evs) := by
  unfold finishStep
  dsimp only
  rw [h]

theorem finishFold_untouched (width : Nat) :
    ∀ (act : List Int) (d : List (Int × LineState)) (evs : List Event) (k : Int),
      k ∉ act →
      lookupD (act.foldl (finishStep width) (d, evs)).1 k = lookupD d k := by
  intro act
  induction act with
  | nil => intro d evs k _; rfl
  | cons a rest ih =>
    intro d evs k hk
    rw [List.foldl_cons]
    have hka : k ≠ a := fun hh => hk (hh ▸ List.mem_cons_self _ _)
    have hkr : k ∉ rest := fun hh => hk (List.mem_cons_of_mem _ hh)
    rcases hl : lookupD d a with _ | st
    · rw [finishStep_eq_none hl]
      exact ih _ _ k hkr
    · rw [finishStep_eq_some hl, ih _ _ k hkr]
      exact lookupD_setD_ne d _ hka

theorem finishFold_lookup (width : Nat) :
    ∀ (act : List Int) (d : List (Int × LineState)) (evs : List Event) (k : Int),
      k ∈ act → act.Nodup →
      lookupD (act.foldl (finishStep width) (d, evs)).1 k
        = (lookupD d k).map
            (fun st => { st with state := .finished, next_action_time := .inf }) := by
  intro act
  induction act with
  | nil => intro d evs k hk; cases hk
  | cons a rest ih =>
    intro d evs k hk hnd
    rw [List.foldl_cons]
    have hanr : a ∉ rest := (List.nodup_cons.mp hnd).1
    have hndr : rest.Nodup := (List.nodup_cons.mp hnd).2
    rcases List.mem_cons.mp hk with rfl | hkr
    · rcases hl : lookupD d k with _ | st
      · rw [finishStep_eq_none hl, finishFold_untouched width rest _ _ k hanr, hl]
        rfl
      · rw [finishStep_eq_some hl, finishFold_untouched width rest _ _ k hanr,
          lookupD_setD_self]
        rfl
    · have hka : k ≠ a := fun hh => hanr (hh ▸ hkr)
      rcases hl : lookupD d a with _ | st
      · rw [finishStep_eq_none hl]
        exact ih _ _ k hkr hndr
      · rw [finishStep_eq_some hl, ih _ _ k hkr hndr, lookupD_setD_ne d _ hka]

theorem finishFold_events (width : Nat) :
    ∀ (act : List Int) (d : List (Int × LineState)) (evs : List Event),
      act.Nodup →
      (act.foldl (finishStep width) (d, evs)).2
        = evs ++ act.flatMap (fun ln =>
            match lookupD d ln with
            | some st =>
              if width < st.config.text.length then
                [Event.renderText (st.config.text.take width) ln]
              else []
            | none => []) := by
  intro act
  induction act with
  | nil => intro d evs _; simp
  | cons a rest ih =>
    intro d evs hnd
    rw [List.foldl_cons]
    have hanr : a ∉ rest := (List.nodup_cons.mp hnd).1
    have hndr : rest.Nodup := (List.nodup_cons.mp hnd).2
    have hcongr : ∀ (d1 : List (Int × LineState)),
        (∀ x ∈ rest, lookupD d1 x = lookupD d x) →
        rest.flatMap (fun ln =>
          match lookupD d1 ln with
          | some st =>
            if width < st.config.text.length then
              [Event.renderText (st.config.text.take width) ln]
            else []
          | none => [])
        = rest.flatMap (fun ln =>
            match lookupD d ln with
            | some st =>
              if width < st.config.text.length then
                [Event.renderText (st.config.text.take width) ln]
              else []
            | none => []) := by
      intro d1 hx
      exact flatMap_congr_mem (fun x hxr => by rw [hx x hxr])
    rcases hl : lookupD d a with _ | st
    · rw [finishStep_eq_none hl, ih _ _ hndr]
      simp only [List.flatMap_cons, hl]
      rw [List.nil_append]
    · rw [finishStep_eq_some hl, ih _ _ hndr]
      rw [hcongr _ (fun x hx => lookupD_setD_ne d _
        (fun hh => hanr (by rw [hh] at hx; exact hx)))]
      simp only [List.flatMap_cons, hl]
      rw [List.append_assoc]

/-! ## Claim C3 -/

/-- C3 counterexample: a static line (`"HI"`, width 16) with
`timeout = 1` is a configured line with timeout > 0, yet the overall
deadline of the run stays `+∞` instead of the `now + timeout = 1` the
claim requires. -/
theorem c3_counterexample :
    (let c : ScrollLine := { text := "HI".toList, line := 1, timeout := 1 }
     0 < c.timeout ∧
     (setup 16 2 0 [c]).overall_end_time = .inf ∧
     ETime.inf ≠ ETime.fin (0 + c.timeout)) := by decide

/-- C3 (amended): the overall deadline equals the minimum of
`start + timeout` over the valid, *scrolling* (text longer than width)
configured lines with timeout > 0 — static and invalid lines contribute
nothing; and whenever the main loop observes `now ≥` this deadline, the
tick renders the static fallback of every still-active scrolling line,
marks every active line finished, and terminates the loop. -/
theorem c3_overall_deadline (width rows : Nat) (now : Time)
    (configs : List ScrollLine) (a b : Time) (s : SchedState)
    (hov : ETime.leq s.overall_end_time a = true)
    (hnd : s.active.Nodup) :
    ((setup width rows now configs).overall_end_time =
      configs.foldl (fun acc c =>
        if validLine rows c.line = true ∧ width < c.text.length ∧ 0 < c.timeout
        then ETime.emin acc (.fin (now + c.timeout))
        else acc) .inf) ∧
    (tick width a b s).2.2 = true ∧
    (tick width a b s).1.active = [] ∧
    ((tick width a b s).2.1 =
      s.active.flatMap (fun ln =>
        match lookupD s.line_states ln with
        | some st =>
          if width < st.config.text.length then
            [Event.renderText (st.config.text.take width) ln]
          else []
        | none => [])) ∧
    (∀ ln ∈ s.active,
      lookupD (tick width a b s).1.line_states ln
        = (lookupD s.line_states ln).map
            (fun st => { st with state := .finished, next_action_time := .inf })) := by
  have hemin_inf : ∀ t : ETime, ETime.emin t .inf = t := by
    intro t
    cases t <;> rfl
  have hstep : ∀ (s0 : SetupState) (c : ScrollLine),
      (setupStep width rows now s0 c).overall_end_time =
        (if validLine rows c.line = true ∧ width < c.text.length ∧ 0 < c.timeout
         then ETime.emin s0.overall_end_time (.fin (now + c.timeout))
         else s0.overall_end_time) := by
    intro s0 c
    unfold setupStep
    by_cases hv : validLine rows c.line = true
    · rw [if_pos hv]
      dsimp only
      by_cases hw : width < c.text.length
      · rw [if_pos hw]
        unfold endTimeFor
        by_cases ht : 0 < c.timeout
        · rw [if_pos ht, if_pos ⟨hv, hw, ht⟩]
        · rw [if_neg ht, if_neg (fun hh => ht hh.2.2), hemin_inf]
      · rw [if_neg hw, if_neg (fun hh => hw hh.2.1)]
    · rw [if_neg hv]
      dsimp only
      rw [if_neg (fun hh => hv hh.1)]
  have hoverall : ∀ (cs : List ScrollLine) (s0 : SetupState),
      (cs.foldl (setupStep width rows now) s0).overall_end_time =
        cs.foldl (fun acc c =>
          if validLine rows c.line = true ∧ width < c.text.length ∧ 0 < c.timeout
          then ETime.emin acc (.fin (now + c.timeout))
          else acc) s0.overall_end_time := by
    intro cs
    induction cs with
    | nil => intro s0; rfl
    | cons c rest ih =>
      intro s0
      rw [List.foldl_cons, List.foldl_cons, ih, hstep]
  refine ⟨hoverall configs ⟨[], .inf, []⟩, ?_, ?_, ?_, ?_⟩
  · unfold tick
    rw [if_pos hov]
  · unfold tick
    rw [if_pos hov]
  · unfold tick
    rw [if_pos hov]
    dsimp only
    rw [finishFold_events width s.active s.line_states [] hnd]
    rfl
  · intro ln hln
    unfold tick
    rw [if_pos hov]
    dsimp only
    exact finishFold_lookup width s.active s.line_states [] ln hln hnd

/-- C3 witness: a concrete scheduler state past its overall deadline. -/
theorem c3_overall_deadline_witness :
    (let st : LineState :=
      { config := { text := "HELLO WORLD".toList, line := 1, timeout := 4 }
        state := .scrolling
        next_action_time := .fin 2
        current_loop := 0
        current_phase_idx := 0
        current_frame_in_phase_idx := 1
        all_phases_indices := [[0, 1, 2, 3]]
        end_time := .fin 4 }
     let s : SchedState :=
      { line_states := [(1, st)], active := [1], overall_end_time := .fin 4 }
     ETime.leq s.overall_end_time 5 = true ∧
     s.active.Nodup ∧
     ((setup 8 2 0 [st.config]).overall_end_time =
       [st.config].foldl (fun acc c =>
         if validLine 2 c.line = true ∧ 8 < c.text.length ∧ 0 < c.timeout
         then ETime.emin acc (.fin (0 + c.timeout))
         else acc) .inf) ∧
     (tick 8 5 5 s).2.2 = true ∧
     (tick 8 5 5 s).1.active = [] ∧
     ((tick 8 5 5 s).2.1 =
       s.active.flatMap (fun ln =>
         match lookupD s.line_states ln with
         | some st2 =>
           if 8 < st2.config.text.length then
             [Event.renderText (st2.config.text.take 8) ln]
           else []
         | none => [])) ∧
     (∀ ln ∈ s.active,
       lookupD (tick 8 5 5 s).1.line_states ln
         = (lookupD s.line_states ln).map
             (fun st2 => { st2 with state := .finished, next_action_time := .inf }))) := by
  refine ⟨by decide, by decide, ?_⟩
  exact c3_overall_deadline 8 2 0 _ 5 5 _ (by decide) (by decide)

/-! ## Claim C8 -/

/-- C8: over every run of `animated_display` — any width, rows, start
time, config list and schedule of observed clock readings — the
frame-index-out-of-bounds error branch is unreachable: no event of the
run is the `FrameIndexOutOfBounds` error print. -/
theorem c8_no_frame_index_oob (width rows : Nat) (now0 : Time)
    (configs : List ScrollLine) (sched : List (Time × Time)) :
    ((animatedDisplay width rows now0 configs sched).events.all
      fun e => ! e.isOOB) = true := by
  unfold animatedDisplay
  dsimp only
  rw [List.all_append, List.all_append]
  rw [setup_no_oob width rows now0 configs]
  have hr := runLoop_dinv_no_oob width sched
    ⟨(setup width rows now0 configs).line_states,
     activeFrom (setup width rows now0 configs).line_states,
     (setup width rows now0 configs).overall_end_time⟩
    (dinv_setup width rows now0 configs)
  rw [hr.2, safeguard_no_oob]
  rfl

/-! ## Claim C1 -/

theorem specPlan_invalid {d : String} (h : d ∉ validDirections) (s : Nat) :
    specPlan d s = specPlan "left" s := by
  have h1 : d ≠ "left" := by rintro rfl; exact h (by decide)
  have h2 : d ≠ "right" := by rintro rfl; exact h (by decide)
  have h3 : d ≠ "both_lr" := by rintro rfl; exact h (by decide)
  have h4 : d ≠ "both_rl" := by rintro rfl; exact h (by decide)
  simp [specPlan, h1, h2, h3, h4]

/-- C1 counterexample: in `animated_display` an unrecognized direction
(`"up"`) falls back to the `"left"` plan *silently*: the setup of such a
config emits only the line clear and the initial frame — no warning event
of any kind — even though the stored plan equals the `"left"` plan.  The
claim asserts the fallback comes with a warning. -/
theorem c1_counterexample :
    (let c : ScrollLine :=
      { text := "HELLO WORLD".toList, line := 1, direction := "up" }
     (setup 8 2 0 [c]).events
       = [.clearLine 1, .renderText "HELLO WO".toList 1] ∧
     ((setup 8 2 0 [c]).events.all fun e => ! e.isWarning) = true ∧
     (lookupD (setup 8 2 0 [c]).line_states 1).map
       (fun st => st.all_phases_indices) = some [[0, 1, 2, 3]] ∧
     computePhases 3 "up" = computePhases 3 "left") := by decide

/-- C1 (amended): for text length `L > W` and `shifts = L − W`, both
`animated_display` and `scroll_text` compute exactly the specified plan —
`left`: 0..shifts ascending; `right`: shifts..0 descending; `both_lr`:
ascending then `shifts−1..0`; `both_rl`: descending then `1..shifts` —
and any direction outside these four yields the `"left"` plan, where
`scroll_text` prints a warning while `animated_display` falls back
silently (its setup emits no warning events at all). -/
theorem c1_scroll_plan (shifts : Nat) (d : String) :
    computePhases shifts d = specPlan d shifts ∧
    scrollTextPhases (if d ∈ validDirections then d else "left") shifts
      = specPlan d shifts ∧
    (d ∉ validDirections →
      computePhases shifts d = computePhases shifts "left" ∧
      (∀ (width : Nat) (c : ScrollLine),
        ((lineEvents width c).all fun e => ! e.isWarning) = true) ∧
      (∀ (clk : Nat → Time) (width rows : Nat) (text : List Char) (ln : Int)
         (loops : Int) (timeout : Time) (fuel : Nat) (r : STResult),
        scroll_text clk width rows text ln d loops timeout fuel = some r →
        Event.warnInvalidDirection d ∈ r.events)) := by
  refine ⟨computePhases_eq_specPlan shifts d, ?_, ?_⟩
  · rw [← computePhases_eq_scrollTextPhases]
    exact computePhases_eq_specPlan shifts d
  · intro h
    refine ⟨?_, ?_, ?_⟩
    · rw [computePhases_eq_specPlan, computePhases_eq_specPlan,
        specPlan_invalid h]
    · intro width c
      unfold lineEvents
      split
      · simp [Event.isWarning]
      · dsimp only
        split <;> simp [Event.isWarning]
    · intro clk width rows text ln loops timeout fuel r hr
      unfold scroll_text at hr
      simp only [if_neg h] at hr
      split at hr
      · obtain rfl := Option.some.inj hr
        simp
      · split at hr
        · obtain rfl := Option.some.inj hr
          simp
        · split at hr
          · cases hr
          · rename_i r0 brk heq
            have hm := stLoop_mono clk text width ln _ _ loops fuel 0
              ⟨(if 0 < timeout then 1 else 0),
               [Event.warnInvalidDirection d] ++ [Event.clearLine ln]⟩
              r0 brk heq
            obtain ⟨t, ht⟩ := hm.2.1
            dsimp only at ht
            split at hr <;> split at hr <;>
              (obtain rfl := Option.some.inj hr; dsimp only; rw [ht]; simp)

/-- C1 witness: concrete instantiation at shifts 3 and direction `"up"`. -/
theorem c1_scroll_plan_witness :
    computePhases 3 "up" = specPlan "up" 3 ∧
    scrollTextPhases (if "up" ∈ validDirections then "up" else "left") 3
      = specPlan "up" 3 ∧
    ("up" ∉ validDirections) ∧
    computePhases 3 "up" = computePhases 3 "left" ∧
    ((lineEvents 8 { text := "HELLO WORLD".toList, line := 1, direction := "up" }).all
      fun e => ! e.isWarning) = true ∧
    Event.warnInvalidDirection "up" ∈
      ((scroll_text (fun i => (i : Int)) 8 2 "HELLO WORLD".toList 1 "up" 1 0 6).map
        (fun r => r.events)).getD [] := by
  have h := c1_scroll_plan 3 "up"
  have hnv : "up" ∉ validDirections := by decide
  have h3 := h.2.2 hnv
  refine ⟨h.1, h.2.1, hnv, h3.1, h3.2.1 8 _, ?_⟩
  rcases hval : scroll_text (fun i => (i : Int)) 8 2 "HELLO WORLD".toList 1 "up" 1 0 6
    with _ | r
  · have hsome : (scroll_text (fun i => (i : Int)) 8 2 "HELLO WORLD".toList 1
        "up" 1 0 6).isSome = true := by decide
    rw [hval] at hsome
    cases hsome
  · dsimp only [Option.map, Option.getD]
    exact h3.2.2 (fun i => (i : Int)) 8 2 "HELLO WORLD".toList 1 1 0 6 r hval

/-! ## Claim C6 -/

theorem runLoop_empty_active (width : Nat) (sched : List (Time × Time))
    (s : SchedState) (h : s.active = []) :
    runLoop width sched s = (s, []) := by
  cases sched with
  | nil => rfl
  | cons ab rest =>
    rcases ab with ⟨a, b⟩
    unfold runLoop
    rw [if_pos (by rw [h]; rfl)]

/-- C6: a valid configured line whose text fits the display is rendered
exactly once during setup (left-aligned, padded to the width), its entry
is immediately `finished` with next-action `+∞`, it never enters the
active set (a run over it alone emits only the clear and that single
render, for every schedule), and the final safeguard pass skips it in any
config list. -/
theorem c6_static_line (width rows : Nat) (now : Time) (c : ScrollLine)
    (hv : validLine rows c.line = true)
    (hlen : c.text.length ≤ width) :
    ((lineEntry width now c).state = .finished ∧
     (lineEntry width now c).next_action_time = .inf) ∧
    lineEvents width c = [.clearLine c.line, .renderText c.text c.line] ∧
    lcdRowContent width c.text
      = c.text ++ List.replicate (width - c.text.length) ' ' ∧
    activeFrom (setup width rows now [c]).line_states = [] ∧
    (∀ sched, (animatedDisplay width rows now [c] sched).events
      = [.clearLine c.line, .renderText c.text c.line]) ∧
    (∀ (d : List (Int × LineState)) (cs1 cs2 : List ScrollLine),
      safeguard width d (cs1 ++ c :: cs2) = safeguard width d (cs1 ++ cs2)) := by
  have hentry : lineEntry width now c =
      { config := c
        state := .finished
        next_action_time := .inf
        current_loop := 0
        current_phase_idx := 0
        current_frame_in_phase_idx := 0
        all_phases_indices := []
        end_time := .inf } := by
    unfold lineEntry
    rw [if_pos hlen]
  have hevents : lineEvents width c
      = [.clearLine c.line, .renderText c.text c.line] := by
    unfold lineEvents
    rw [if_pos hlen]
  have hsetup : setup width rows now [c] =
      ⟨[(c.line, lineEntry width now c)],
       .inf, lineEvents width c⟩ := by
    unfold setup
    rw [List.foldl_cons, List.foldl_nil]
    unfold setupStep
    rw [if_pos hv]
    dsimp only
    rw [if_neg (by omega)]
    rfl
  have hactive : activeFrom (setup width rows now [c]).line_states = [] := by
    rw [hsetup]
    unfold activeFrom
    rw [List.filter_cons]
    rw [hentry]
    simp
  have hsgstep : ∀ (d : List (Int × LineState)) (evs : List Event),
      safeguardStep width d evs c = evs := by
    intro d evs
    unfold safeguardStep
    split
    · rw [if_neg (fun hh => absurd hh.2 (by omega))]
    · rfl
  refine ⟨⟨by rw [hentry], by rw [hentry]⟩, hevents, ?_, hactive, ?_, ?_⟩
  · unfold lcdRowContent get_text_line ljust
    rw [if_pos hlen]
  · intro sched
    unfold animatedDisplay
    dsimp only
    rw [runLoop_empty_active width sched _ (by rw [hactive])]
    dsimp only
    rw [hsetup]
    dsimp only
    unfold safeguard
    rw [List.foldl_cons, List.foldl_nil, hsgstep]
    rw [hevents, List.append_nil, List.append_nil]
  · intro d cs1 cs2
    unfold safeguard
    rw [List.foldl_append, List.foldl_append, List.foldl_cons, hsgstep]

/-- C6 witness: the two-row display with a short `"HI"` line. -/
theorem c6_static_line_witness :
    (let c : ScrollLine := { text := "HI".toList, line := 1 }
     validLine 2 c.line = true ∧
     c.text.length ≤ 16 ∧
     ((lineEntry 16 0 c).state = .finished ∧
      (lineEntry 16 0 c).next_action_time = .inf) ∧
     lineEvents 16 c = [.clearLine 1, .renderText "HI".toList 1] ∧
     lcdRowContent 16 c.text
       = c.text ++ List.replicate (16 - c.text.length) ' ' ∧
     activeFrom (setup 16 2 0 [c]).line_states = [] ∧
     (animatedDisplay 16 2 0 [c] [(1, 1), (2, 2)]).events
       = [.clearLine 1, .renderText "HI".toList 1]) := by
  refine ⟨by decide, by decide, ?_⟩
  have h := c6_static_line 16 2 0 { text := "HI".toList, line := 1 }
    (by decide) (by decide)
  exact ⟨h.1, h.2.1, h.2.2.1, h.2.2.2.1, h.2.2.2.2.1 [(1, 1), (2, 2)]⟩

/-! ## Claim C9 -/

/-- C9: when a later config targets the same line number as an earlier
one, the setup loop's dict assignment replaces the earlier entry: the
final `line_states` of the setup is the earlier states with the key
updated to the last config's entry (so only the last config is
subsequently animated and tracked), the lookup on that line yields the
last config's entry, while the duplicate still contributes its own line
clear and initial render to the event trace, and only a scrolling
duplicate contributes to the overall deadline. -/
theorem c9_duplicate_lines (width rows : Nat) (now : Time)
    (cs : List ScrollLine) (c : ScrollLine)
    (hv : validLine rows c.line = true) :
    (setup width rows now (cs ++ [c])).line_states
      = setD (setup width rows now cs).line_states c.line (lineEntry width now c) ∧
    lookupD (setup width rows now (cs ++ [c])).line_states c.line
      = some (lineEntry width now c) ∧
    (setup width rows now (cs ++ [c])).events
      = (setup width rows now cs).events ++ lineEvents width c ∧
    (setup width rows now (cs ++ [c])).overall_end_time
      = (if width < c.text.length
         then ETime.emin (setup width rows now cs).overall_end_time
           (endTimeFor now c)
         else (setup width rows now cs).overall_end_time) := by
  have happ : setup width rows now (cs ++ [c])
      = setupStep width rows now (setup width rows now cs) c := by
    unfold setup
    rw [List.foldl_append, List.foldl_cons, List.foldl_nil]
  rw [happ]
  unfold setupStep
  rw [if_pos hv]
  exact ⟨rfl, lookupD_setD_self _ _ _, rfl, rfl⟩

/-- C9 witness: two configs on line 1 — the later static `"BYE"` entry
replaces the earlier scrolling one, and both rendered during setup. -/
theorem c9_duplicate_lines_witness :
    (let c1 : ScrollLine := { text := "HELLO WORLD".toList, line := 1 }
     let c2 : ScrollLine := { text := "BYE".toList, line := 1 }
     validLine 2 (1 : Int) = true ∧
     ((setup 8 2 0 [c1, c2]).line_states
       = setD (setup 8 2 0 [c1]).line_states 1 (lineEntry 8 0 c2) ∧
      lookupD (setup 8 2 0 [c1, c2]).line_states 1 = some (lineEntry 8 0 c2) ∧
      (setup 8 2 0 [c1, c2]).events
        = (setup 8 2 0 [c1]).events ++ lineEvents 8 c2) ∧
     (setup 8 2 0 [c1, c2]).events
       = [.clearLine 1, .renderText "HELLO WO".toList 1,
          .clearLine 1, .renderText "BYE".toList 1] ∧
     (lookupD (setup 8 2 0 [c1, c2]).line_states 1).map (fun st => st.state)
       = some .finished) := by
  refine ⟨by decide, ?_, by decide, by decide⟩
  have h := c9_duplicate_lines 8 2 0
    [{ text := "HELLO WORLD".toList, line := 1 }]
    { text := "BYE".toList, line := 1 } (by decide)
  exact ⟨h.1, h.2.1, h.2.2.1⟩

/-! ## Setup decomposition and key-validity lemmas -/

/-- The events one config contributes to the setup pass. -/
def configEvents (width rows : Nat) (c : ScrollLine) : List Event :=
  if validLine rows c.line then lineEvents width c
  else [.warnInvalidLine c.line]

theorem setupStep_invalid {width rows : Nat} {now : Time} {c : ScrollLine}
    (h : validLine rows c.line = false) (s : SetupState) :
    setupStep width rows now s c
      = { s with events := s.events ++ [.warnInvalidLine c.line] } := by
  unfold setupStep
  rw [if_neg (by simp [h])]

theorem setupStep_fields (width rows : Nat) (now : Time) (s : SetupState)
    (c : ScrollLine) :
    (setupStep width rows now s c).line_states
      = (if validLine rows c.line then
          setD s.line_states c.line (lineEntry width now c)
        else s.line_states) ∧
    (setupStep width rows now s c).overall_end_time
      = (if validLine rows c.line then
          (if width < c.text.length then
            ETime.emin s.overall_end_time (endTimeFor now c)
          else s.overall_end_time)
        else s.overall_end_time) ∧
    (setupStep width rows now s c).events = s.events ++ configEvents width rows c := by
  unfold setupStep configEvents
  split <;> exact ⟨rfl, rfl, rfl⟩

theorem setup_foldl_decomp (width rows : Nat) (now : Time) :
    ∀ (cs : List ScrollLine) (s : SetupState),
      cs.foldl (setupStep width rows now) s
        = ⟨(cs.foldl (setupStep width rows now)
              ⟨s.line_states, s.overall_end_time, []⟩).line_states,
           (cs.foldl (setupStep width rows now)
              ⟨s.line_states, s.overall_end_time, []⟩).overall_end_time,
           s.events ++ (cs.foldl (setupStep width rows now)
              ⟨s.line_states, s.overall_end_time, []⟩).events⟩ := by
  intro cs
  induction cs with
  | nil =>
    intro s
    rw [List.foldl_nil, List.foldl_nil]
    cases s with
    | mk L O E =>
      dsimp only
      rw [List.append_nil]
  | cons c rest ih =>
    intro s
    rw [List.foldl_cons, List.foldl_cons]
    rw [ih (setupStep width rows now s c)]
    rw [ih (setupStep width rows now ⟨s.line_states, s.overall_end_time, []⟩ c)]
    have hf := setupStep_fields width rows now s c
    have hg := setupStep_fields width rows now
      ⟨s.line_states, s.overall_end_time, []⟩ c
    have hL : (setupStep width rows now s c).line_states
        = (setupStep width rows now ⟨s.line_states, s.overall_end_time, []⟩ c).line_states := by
      rw [hf.1, hg.1]
    have hO : (setupStep width rows now s c).overall_end_time
        = (setupStep width rows now ⟨s.line_states, s.overall_end_time, []⟩ c).overall_end_time := by
      rw [hf.2.1, hg.2.1]
    have hE2 : (setupStep width rows now
        ⟨s.line_states, s.overall_end_time, []⟩ c).events
        = configEvents width rows c := by
      rw [hg.2.2]
      exact List.nil_append _
    rw [hL, hO, hf.2.2, hE2, List.append_assoc]

theorem setup_keys_valid (width rows : Nat) (now : Time)
    (cs : List ScrollLine) :
    ∀ p ∈ (setup width rows now cs).line_states, validLine rows p.1 = true := by
  unfold setup
  refine foldl_preserve
    (fun s : SetupState => ∀ p ∈ s.line_states, validLine rows p.1 = true)
    (setupStep width rows now) cs ⟨[], .inf, []⟩ (by intro p hp; cases hp) ?_
  intro s c hs
  unfold setupStep
  split
  · rename_i hvc
    intro p hp
    dsimp only at hp
    rcases mem_setD hp with h1 | h1
    · exact hs p h1
    · rw [h1]
      exact hvc
  · exact hs

theorem finishStep_some {width : Nat}
    {acc : List (Int × LineState) × List Event} {a : Int} {st : LineState}
    (h : lookupD acc.1 a = some st) :
    finishStep width acc a =
      (setD acc.1 a { st with state := .finished, next_action_time := .inf },
       acc.2 ++
         (if width < st.config.text.length then
           [Event.renderText (st.config.text.take width) a]
         else [])) := by
  unfold finishStep
  rw [h]

theorem finishStep_none {width : Nat}
    {acc : List (Int × LineState) × List Event} {a : Int}
    (h : lookupD acc.1 a = none) :
    finishStep width acc a = acc := by
  unfold finishStep
  rw [h]

theorem processStep_some {width : Nat} {now : Time}
    {acc : List (Int × LineState) × List Int × List Event} {ln : Int}
    {st : LineState} (h : lookupD acc.1 ln = some st) :
    processStep width now acc ln =
      (setD acc.1 ln (processLine width now ln st).st,
       if (processLine width now ln st).removed then
         acc.2.1.filter (fun x => x ≠ ln)
       else acc.2.1,
       acc.2.2 ++ (processLine width now ln st).events) := by
  unfold processStep
  rw [h]

theorem processStep_none {width : Nat} {now : Time}
    {acc : List (Int × LineState) × List Int × List Event} {ln : Int}
    (h : lookupD acc.1 ln = none) :
    processStep width now acc ln = acc := by
  unfold processStep
  rw [h]

theorem tick_keys_valid (width rows : Nat) (a b : Time) (s : SchedState)
    (hd : ∀ p ∈ s.line_states, validLine rows p.1 = true) :
    ∀ p ∈ (tick width a b s).1.line_states, validLine rows p.1 = true := by
  unfold tick
  split
  · exact foldl_preserve
      (fun acc : List (Int × LineState) × List Event =>
        ∀ p ∈ acc.1, validLine rows p.1 = true)
      (finishStep width) s.active (s.line_states, []) hd
      (by
        intro acc ln hacc
        rcases hl : lookupD acc.1 ln with _ | st
        · rw [finishStep_none hl]
          exact hacc
        · rw [finishStep_some hl]
          intro p hp
          rcases mem_setD hp with h1 | h1
          · exact hacc p h1
          · rw [h1]
            exact hacc (ln, st) (lookupD_mem hl))
  · exact foldl_preserve
      (fun acc : List (Int × LineState) × List Int × List Event =>
        ∀ p ∈ acc.1, validLine rows p.1 = true)
      (processStep width _) s.active (s.line_states, s.active, []) hd
      (by
        intro acc ln hacc
        rcases hl : lookupD acc.1 ln with _ | st
        · rw [processStep_none hl]
          exact hacc
        · rw [processStep_some hl]
          intro p hp
          rcases mem_setD hp with h1 | h1
          · exact hacc p h1
          · rw [h1]
            exact hacc (ln, st) (lookupD_mem hl))

theorem runLoop_keys_valid (width rows : Nat) (sched : List (Time × Time))
    (s : SchedState)
    (hd : ∀ p ∈ s.line_states, validLine rows p.1 = true) :
    ∀ p ∈ (runLoop width sched s).1.line_states, validLine rows p.1 = true := by
  induction sched generalizing s with
  | nil => exact hd
  | cons ab rest ih =>
    rcases ab with ⟨a, b⟩
    unfold runLoop
    split
    · exact hd
    · dsimp only
      split
      · exact tick_keys_valid width rows a b s hd
      · exact ih _ (tick_keys_valid width rows a b s hd)

theorem lookupD_none_of_invalid {rows : Nat} {d : List (Int × LineState)}
    {k : Int} (hd : ∀ p ∈ d, validLine rows p.1 = true)
    (hk : validLine rows k = false) : lookupD d k = none := by
  induction d with
  | nil => rfl
  | cons p rest ih =>
    unfold lookupD
    by_cases hpk : p.1 = k
    · exfalso
      have hvp := hd p (List.mem_cons_self _ _)
      rw [hpk, hk] at hvp
      cases hvp
    · rw [if_neg hpk]
      exact ih (fun q hq => hd q (List.mem_cons_of_mem _ hq))

theorem safeguard_skip_none {width : Nat} {d : List (Int × LineState)}
    {c : ScrollLine} (h : lookupD d c.line = none) (cs1 cs2 : List ScrollLine) :
    safeguard width d (cs1 ++ c :: cs2) = safeguard width d (cs1 ++ cs2) := by
  unfold safeguard
  rw [List.foldl_append, List.foldl_append, List.foldl_cons]
  congr 1
  unfold safeguardStep
  rw [h]

/-! ## Claim C7 -/

/-- C7: a config whose line number is invalid (outside the `LINES` table
or beyond the display's rows) is skipped with a warning: it produces no
state entry, contributes nothing to the overall deadline, renders and
clears nothing, and the whole run over the remaining configs — states,
rendered frames and timing — is identical to a run without that config,
the single inserted warning aside. -/
theorem c7_invalid_line_skipped (width rows : Nat) (now : Time)
    (cs1 cs2 : List ScrollLine) (c : ScrollLine) (sched : List (Time × Time))
    (hv : validLine rows c.line = false) :
    (animatedDisplay width rows now (cs1 ++ c :: cs2) sched).line_states
      = (animatedDisplay width rows now (cs1 ++ cs2) sched).line_states ∧
    ∃ post,
      (animatedDisplay width rows now (cs1 ++ c :: cs2) sched).events
        = (setup width rows now cs1).events
          ++ [.warnInvalidLine c.line] ++ post ∧
      (animatedDisplay width rows now (cs1 ++ cs2) sched).events
        = (setup width rows now cs1).events ++ post := by
  have hstepA : setup width rows now (cs1 ++ c :: cs2)
      = cs2.foldl (setupStep width rows now)
          { setup width rows now cs1 with
              events := (setup width rows now cs1).events
                ++ [.warnInvalidLine c.line] } := by
    unfold setup
    rw [List.foldl_append, List.foldl_cons]
    rw [setupStep_invalid hv]
  have hstepB : setup width rows now (cs1 ++ cs2)
      = cs2.foldl (setupStep width rows now) (setup width rows now cs1) := by
    unfold setup
    rw [List.foldl_append]
  have hdA := setup_foldl_decomp width rows now cs2
    { setup width rows now cs1 with
        events := (setup width rows now cs1).events
          ++ [.warnInvalidLine c.line] }
  have hdB := setup_foldl_decomp width rows now cs2 (setup width rows now cs1)
  rw [hdA] at hstepA
  rw [hdB] at hstepB
  dsimp only at hstepA hstepB
  -- the two setups share line states and overall deadline
  have hLS : (setup width rows now (cs1 ++ c :: cs2)).line_states
      = (setup width rows now (cs1 ++ cs2)).line_states := by
    rw [hstepA, hstepB]
  have hOV : (setup width rows now (cs1 ++ c :: cs2)).overall_end_time
      = (setup width rows now (cs1 ++ cs2)).overall_end_time := by
    rw [hstepA, hstepB]
  have hkeys : ∀ p ∈ (runLoop width sched
      ⟨(setup width rows now (cs1 ++ cs2)).line_states,
       activeFrom (setup width rows now (cs1 ++ cs2)).line_states,
       (setup width rows now (cs1 ++ cs2)).overall_end_time⟩).1.line_states,
      validLine rows p.1 = true :=
    runLoop_keys_valid width rows sched _
      (setup_keys_valid width rows now (cs1 ++ cs2))
  constructor
  · unfold animatedDisplay
    dsimp only
    rw [hLS, hOV]
  · refine ⟨(cs2.foldl (setupStep width rows now)
        ⟨(setup width rows now cs1).line_states,
         (setup width rows now cs1).overall_end_time, []⟩).events
      ++ (runLoop width sched
            ⟨(setup width rows now (cs1 ++ cs2)).line_states,
             activeFrom (setup width rows now (cs1 ++ cs2)).line_states,
             (setup width rows now (cs1 ++ cs2)).overall_end_time⟩).2
      ++ safeguard width
          (runLoop width sched
            ⟨(setup width rows now (cs1 ++ cs2)).line_states,
             activeFrom (setup width rows now (cs1 ++ cs2)).line_states,
             (setup width rows now (cs1 ++ cs2)).overall_end_time⟩).1.line_states
          (cs1 ++ cs2), ?_, ?_⟩
    · unfold animatedDisplay
      dsimp only
      rw [hLS, hOV]
      rw [safeguard_skip_none
        (lookupD_none_of_invalid hkeys hv) cs1 cs2]
      have hevA : (setup width rows now (cs1 ++ c :: cs2)).events
          = ((setup width rows now cs1).events ++ [Event.warnInvalidLine c.line])
            ++ (cs2.foldl (setupStep width rows now)
                ⟨(setup width rows now cs1).line_states,
                 (setup width rows now cs1).overall_end_time, []⟩).events := by
        rw [hstepA]
      rw [hevA]
      simp only [List.append_assoc]
    · unfold animatedDisplay
      dsimp only
      have hevB : (setup width rows now (cs1 ++ cs2)).events
          = (setup width rows now cs1).events
            ++ (cs2.foldl (setupStep width rows now)
                ⟨(setup width rows now cs1).line_states,
                 (setup width rows now cs1).overall_end_time, []⟩).events := by
        rw [hstepB]
      rw [hevB]
      simp only [List.append_assoc]

/-- C7 witness: inserting a config for line 7 (invalid on a 2-row
display) between two valid configs changes nothing but a warning. -/
theorem c7_invalid_line_skipped_witness :
    (let cGood : ScrollLine := { text := "HI".toList, line := 1 }
     let cBad : ScrollLine := { text := "OOPS".toList, line := 7 }
     let cTail : ScrollLine := { text := "YO".toList, line := 2 }
     validLine 2 cBad.line = false ∧
     ((animatedDisplay 16 2 0 ([cGood] ++ cBad :: [cTail]) [(1, 1)]).line_states
       = (animatedDisplay 16 2 0 ([cGood] ++ [cTail]) [(1, 1)]).line_states ∧
      ∃ post,
        (animatedDisplay 16 2 0 ([cGood] ++ cBad :: [cTail]) [(1, 1)]).events
          = (setup 16 2 0 [cGood]).events
            ++ [.warnInvalidLine cBad.line] ++ post ∧
        (animatedDisplay 16 2 0 ([cGood] ++ [cTail]) [(1, 1)]).events
          = (setup 16 2 0 [cGood]).events ++ post)) := by
  exact ⟨by decide,
    c7_invalid_line_skipped 16 2 0 [{ text := "HI".toList, line := 1 }]
      [{ text := "YO".toList, line := 2 }]
      { text := "OOPS".toList, line := 7 } [(1, 1)] (by decide)⟩

/-! ## Claim C10 -/

theorem qle_false_of_ltq_le {t : ETime} {x y : Time}
    (h : ETime.ltq t x = true) (hxy : x ≤ y) : ETime.qle y t = false := by
  cases t with
  | fin a =>
    simp only [ETime.ltq, decide_eq_true_eq] at h
    simp only [ETime.qle, decide_eq_false_iff_not]
    exact not_le.mpr (lt_of_lt_of_le h hxy)
  | inf =>
    simp only [ETime.ltq] at h
    cases h

/-- C10: in `scroll_text`, the final static frame (`text[:width]`) is
rendered exactly when the routine exits with the last monotonic reading
still at or before the deadline; when the animation loop broke on
timeout, the break reading already exceeded the deadline and precedes the
final reading, so under a monotone clock the final static frame is *not*
rendered and the routine returns leaving the last scroll frame — unlike
`animated_display`, whose deadline branch always renders the static
fallback for a timed-out scrolling line. -/
theorem c10_scroll_text_timeout (clk : Nat → Time) (width rows : Nat)
    (text : List Char) (ln : Int) (d : String) (loops : Int) (timeout : Time)
    (fuel : Nat) (r : STResult)
    (hmono : ∀ i j : Nat, i ≤ j → clk i ≤ clk j)
    (hrun : scroll_text clk width rows text ln d loops timeout fuel = some r)
    (hvalid : validLine rows ln = true)
    (hscroll : width < text.length) :
    (r.finalStatic = true ↔
      ETime.qle (clk r.finalIdx)
        (if 0 < timeout then ETime.fin (clk 0 + timeout) else ETime.inf) = true) ∧
    (∀ k, r.breakIdx = some k →
      ETime.ltq (if 0 < timeout then ETime.fin (clk 0 + timeout) else ETime.inf)
        (clk k) = true ∧ k < r.finalIdx ∧ r.finalStatic = false) ∧
    (∀ (w2 : Nat) (now : Time) (ln2 : Int) (s : LineState),
      s.state ≠ .finished →
      ETime.qlt now s.next_action_time = false →
      ETime.leq s.end_time now = true →
      w2 < s.config.text.length →
      (processLine w2 now ln2 s).events
        = [.renderText (s.config.text.take w2) ln2]) := by
  have hstep3 : ∀ (w2 : Nat) (now : Time) (ln2 : Int) (s : LineState),
      s.state ≠ .finished →
      ETime.qlt now s.next_action_time = false →
      ETime.leq s.end_time now = true →
      w2 < s.config.text.length →
      (processLine w2 now ln2 s).events
        = [.renderText (s.config.text.take w2) ln2] := by
    intro w2 now ln2 s h1 h2 h3 hw
    rw [processLine_eq_deadline (by simp [h1, h2]) h3]
    dsimp only
    rw [if_pos hw]
  unfold scroll_text at hrun
  dsimp only at hrun
  rw [if_neg (not_not_intro hvalid)] at hrun
  rw [if_neg (by omega)] at hrun
  set endT := (if 0 < timeout then ETime.fin (clk 0 + timeout) else ETime.inf)
    with hendT
  split at hrun
  · cases hrun
  rename_i r0 brk heq
  have hm := stLoop_mono clk text width ln endT _ loops fuel 0 _ r0 brk heq
  split at hrun
  · rename_i hq
    obtain rfl := Option.some.inj hrun
    refine ⟨iff_of_true rfl hq, ?_, hstep3⟩
    intro k hk
    dsimp only at hk
    have hb := hm.2.2 k hk
    have hle := hmono k r0.idx (Nat.le_of_lt hb.1)
    have hfalse := qle_false_of_ltq_le hb.2 hle
    rw [hfalse] at hq
    cases hq
  · rename_i hq
    obtain rfl := Option.some.inj hrun
    refine ⟨iff_of_false (by simp) hq, ?_, hstep3⟩
    intro k hk
    dsimp only at hk
    have hb := hm.2.2 k hk
    exact ⟨hb.2, hb.1, rfl⟩

/-- C10 witness: clock `i ↦ i`, `"HELLO WORLD"` on width 8, timeout 3.
The run times out inside the loop (break reading index 5), and the final
static frame is not rendered: the trace ends at the offset-0 scroll
frame. -/
theorem c10_scroll_text_timeout_witness :
    (let clk : Nat → Time := fun i => (i : Int)
     let r : STResult :=
      { events := [.clearLine 1, .renderText "HELLO WO".toList 1]
        finalStatic := false
        finalIdx := 6
        breakIdx := some 5 }
     (∀ i j : Nat, i ≤ j → clk i ≤ clk j) ∧
     scroll_text clk 8 2 "HELLO WORLD".toList 1 "left" 1 3 5 = some r ∧
     validLine 2 1 = true ∧
     (8 < "HELLO WORLD".toList.length) ∧
     ((r.finalStatic = true ↔
       ETime.qle (clk r.finalIdx)
         (if 0 < (3 : Time) then ETime.fin (clk 0 + 3) else ETime.inf) = true) ∧
      (∀ k, r.breakIdx = some k →
        ETime.ltq (if 0 < (3 : Time) then ETime.fin (clk 0 + 3) else ETime.inf)
          (clk k) = true ∧ k < r.finalIdx ∧ r.finalStatic = false) ∧
      (∀ (w2 : Nat) (now : Time) (ln2 : Int) (s : LineState),
        s.state ≠ .finished →
        ETime.qlt now s.next_action_time = false →
        ETime.leq s.end_time now = true →
        w2 < s.config.text.length →
        (processLine w2 now ln2 s).events
          = [.renderText (s.config.text.take w2) ln2]))) := by
  have hmono : ∀ i j : Nat, i ≤ j → ((i : Int) ≤ (j : Int)) :=
    fun i j h => Int.ofNat_le.mpr h
  refine ⟨hmono, by decide, by decide, by decide, ?_⟩
  exact c10_scroll_text_timeout (fun i => (i : Int)) 8 2
    "HELLO WORLD".toList 1 "left" 1 3 5 _ hmono (by decide)
    (by decide) (by decide)

end RpiLcd
